import Mathlib

/-!
Verification of the meeting-scheduler core.

Shallow embedding of the `meeting_scheduler` repository (Python) in Lean 4:

* `domain/timegrid.py`          → `TimeGrid`, `slot_to_time`, `meeting_slots_covered`, `dt_index`
* `meeting_scheduler/config.py` → `PenaltyConfig`, `AppConfig`, `DEFAULT_CONFIG`
* `scheduler_core/domain/models.py` → `Person`, `Team`, `FixedMeeting`, `CandidateSlot`,
  `SolutionMeeting`, `SolveResult`
* `io_layer/xlsx_reader.py` (cell normalization) → `normalize_avail_cell`
* `validation/validator.py` → `validate_generation_start`
* `preprocessing/preprocess.py` → `build_can_attend_at`, `build_occupied_at`,
  `fixed_by_team_sorted`, `generate_candidates`
* `optimization/milp.py` → `MilpAssign`, `MilpSat` (the hard-constraint system handed to the
  backend), `reconstructMeetings` (solution reconstruction), `solve_milp_post` (the code after
  `m.optimize()` returns).

Modelling conventions:
* Calendar dates are represented by their `date.toordinal()` value, a `Nat`; comparing dates
  is comparing ordinals, and `d + timedelta(days=1)` is `d + 1`.
* A `datetime` (only compared with `<` / `=` in `validate_generation_start`) is an `Int`.
* Python dicts that are iterated are association lists `List (String × _)` in insertion
  order; dict key lookup is `lookupL`.  Python's stable `list.sort(key=...)` is
  `List.insertionSort` with the non-strict key order (any stable sort computes the same list).
* The availability store `data.avail : pid → date → slot → int` is accessed in the code only
  through `in` / `.get` chains; it is embedded as the pair of functions `avail_has pid d`
  ("`pid ∈ avail` and `d ∈ avail[pid]`") and `avail_val pid d s` ("`avail[pid][d].get(s)`",
  `none` when the key chain is absent).
* The Gurobi backend is external.  A solver outcome is a `GrbStatus` plus an optional
  variable assignment `MilpAssign`; the backend's contract is that a returned assignment is
  feasible and integral, i.e. satisfies `MilpSat`.  Binary variables are `Bool`, the integer
  variables `w`, `Wmax` are `Int`, and the continuous slack `v[t,d]` (which only occurs with
  integer bounds, and never constrains the binary variables) is carried as `Int`.
-/

/-- Source: `domain/timegrid.py`, class `TimeGrid` (dataclass, defaults 9 / 26 / 30). -/
structure TimeGrid where
  day_start_hour : Nat := 9
  slots_per_day : Nat := 26
  slot_minutes : Nat := 30
deriving DecidableEq

/-- A Python `datetime.time` value `time(hh, mm)`. -/
structure TimeOfDay where
  hour : Nat
  minute : Nat
deriving DecidableEq

/-- Source: `TimeGrid.slot_to_time`: `minutes = day_start_hour*60 + slot*slot_minutes`,
returned as `time(minutes // 60, minutes % 60)`. -/
def TimeGrid.slot_to_time (g : TimeGrid) (slot : Nat) : TimeOfDay :=
  let minutes := g.day_start_hour * 60 + slot * g.slot_minutes
  ⟨minutes / 60, minutes % 60⟩

/-- Source: `TimeGrid.meeting_end_time`. -/
def TimeGrid.meeting_end_time (g : TimeGrid) (start_slot meeting_slots : Nat) : TimeOfDay :=
  let minutes := g.day_start_hour * 60 + (start_slot + meeting_slots) * g.slot_minutes
  ⟨minutes / 60, minutes % 60⟩

/-- Source: `TimeGrid.meeting_slots_covered`: `list(range(start_slot, start_slot + meeting_slots))`. -/
def TimeGrid.meeting_slots_covered (_g : TimeGrid) (start_slot meeting_slots : Nat) : List Nat :=
  List.range' start_slot meeting_slots

/-- Source: `TimeGrid.dt_index`: `d.toordinal() * 100 + start_slot` (dates are their ordinals). -/
def TimeGrid.dt_index (_g : TimeGrid) (d : Nat) (start_slot : Nat) : Nat :=
  d * 100 + start_slot

/-- Minutes-of-day of a `time` value, as computed at
`preprocess.py:94` (`st_time.hour * 60 + st_time.minute`). -/
def TimeOfDay.asMinutes (t : TimeOfDay) : Nat := t.hour * 60 + t.minute

/-- Source: `config.py`, `PenaltyConfig` (availability-cell penalties). -/
structure PenaltyConfig where
  value2 : Int := 1
  value3 : Int := 2
deriving DecidableEq

/-- Source: `config.py`, `AppConfig` (only the fields the scheduling core reads). -/
structure AppConfig where
  day_start_hour : Nat := 9
  slots_per_day : Nat := 26
  meeting_slots : Nat := 4
  latest_start_slot : Nat := 22
  penalty : PenaltyConfig := {}
deriving DecidableEq

/-- Source: `config.py`, `DEFAULT_CONFIG = AppConfig()`. -/
def DEFAULT_CONFIG : AppConfig := {}

/-- Source: `scheduler_core/domain/models.py`, `Person`. -/
structure Person where
  pid : String
  name : String
  is_commissioner : Bool
  is_senior_commissioner : Bool
deriving DecidableEq

/-- Source: `scheduler_core/domain/models.py`, `Team` (`member_pids` is a Python set, used only
through membership tests; a `List` carries it). -/
structure Team where
  tid : String
  name : String
  leader_pid : String
  member_pids : List String
  deadline : Nat
  base_required : Int
  add_required : Int
deriving DecidableEq

/-- Source: `scheduler_core/domain/models.py`, `FixedMeeting` (the 4-tuple of commissioners is a
list of length 4). -/
structure FixedMeeting where
  team_tid : String
  day : Nat
  start_slot : Nat
  leader_pid : String
  commissioner_pids : List String
  meeting_no : Option Int := none
deriving DecidableEq

/-- Source: `scheduler_core/domain/models.py`, `CandidateSlot`. -/
structure CandidateSlot where
  team_tid : String
  day : Nat
  start_slot : Nat
  dt_idx : Nat
deriving DecidableEq

/-- Source: `scheduler_core/domain/models.py`, `SolutionMeeting`. -/
structure SolutionMeeting where
  team_tid : String
  day : Nat
  start_slot : Nat
  leader_pid : String
  commissioner_pids : List String
  meeting_no : Nat
  handover_person_pid : Option String
deriving DecidableEq

/-- Source: `scheduler_core/domain/models.py`, `SolveResult`. -/
structure SolveResult where
  feasible : Bool
  status : String
  meetings : List SolutionMeeting
  iis_summary : Option String := none
deriving DecidableEq

/-- Source: `io_layer/xlsx_reader.py:114-127`, the per-cell normalization of
`read_availability_month_file`.  The input is the outcome of `int(cell_value)`: `none`
stands for an empty cell (`v is None`) or a cell whose value `int(...)` cannot parse (both
are turned into the raw value 0); `some n` is a parsed integer. -/
def normalize_avail_cell (v : Option Int) : Int :=
  let vv : Int := match v with | none => 0 | some n => n
  let vv := if vv = 0 then 4 else vv
  if vv = 1 ∨ vv = 2 ∨ vv = 3 ∨ vv = 4 then vv else 4

/-- Source: `validation/validator.py:21-24`, `validate_generation_start` (datetimes as `Int`;
`Except.error` is the raised `ValidationError`). -/
def validate_generation_start (now generation_start : Int) : Except String Unit :=
  if generation_start < now then
    Except.error "generation start datetime lies in the past"
  else Except.ok ()

/-- Source: `main_cli.py:41-45`: `main` calls `validate_generation_start` inside `try/except` and
returns exit code 1 on `ValidationError` — before the reader, preprocessing or solver run.
`rest` stands for the whole remaining pipeline (which yields the eventual exit code). -/
def main_validation_gate (now generation_start : Int) (rest : Unit → Nat) : Nat :=
  match validate_generation_start now generation_start with
  | Except.error _ => 1
  | Except.ok _ => rest ()

/-- Source: `datetime.date()` and `.hour`/`.minute` of the `generation_start` argument. -/
structure GenStart where
  day : Nat
  hour : Nat
  minute : Nat
deriving DecidableEq

/-- Source: `generation_start.hour * 60 + generation_start.minute` (`preprocess.py:77`). -/
def GenStart.minutes (gs : GenStart) : Nat := gs.hour * 60 + gs.minute

/-- Association-list lookup, the embedding of Python dict `d[k]` / `d.get(k)`. -/
def lookupL {β : Type} : List (String × β) → String → Option β
  | [], _ => none
  | (k, v) :: rest, key => if key = k then some v else lookupL rest key

/-- First-occurrence deduplication: the key order of a Python dict built by
`setdefault`-insertion, and the element set of a Python `set(...)` literal. -/
def firstKeysAux {α : Type} [BEq α] (seen : List α) : List α → List α
  | [] => []
  | x :: xs => if seen.contains x then firstKeysAux seen xs else x :: firstKeysAux (x :: seen) xs

def firstKeys {α : Type} [BEq α] (l : List α) : List α := firstKeysAux [] l

/-- Source: `preprocess.py:21-35` `build_can_attend`, read back through the access chain
`can_attend.get(pid, {}).get(d, {}).get(s, False)` used at `preprocess.py:101`:
the nested dicts hold a value exactly for `pid`/`d` present in `data.avail` and
`0 ≤ s ≤ latest_start_slot`, and that value is "no covered cell is 0 or 4"
(an absent cell reads as 4 via `slots.get(ss, 4)`). -/
def build_can_attend_at (cfg : AppConfig) (grid : TimeGrid)
    (avail_has : String → Nat → Bool) (avail_val : String → Nat → Nat → Option Int)
    (pid : String) (d : Nat) (s : Nat) : Bool :=
  avail_has pid d && decide (s ≤ cfg.latest_start_slot) &&
    (grid.meeting_slots_covered s cfg.meeting_slots).all (fun ss =>
      let v := (avail_val pid d ss).getD 4
      !(v == 0 || v == 4))

/-- Source: `preprocess.py:38-48` `build_occupied_from_fixed`, read back through
`occupied.get(pid, {}).get(d, {}).get(sl, False)` (`preprocess.py:107`): `True` exactly when
some fixed meeting involving `pid` (leader or commissioner) on day `d` covers slot `sl`
within `0 ≤ sl < slots_per_day`. -/
def build_occupied_at (cfg : AppConfig) (grid : TimeGrid) (fixed : List FixedMeeting)
    (pid : String) (d : Nat) (sl : Nat) : Bool :=
  fixed.any (fun fm =>
    (pid == fm.leader_pid || fm.commissioner_pids.contains pid) && fm.day == d &&
      (grid.meeting_slots_covered fm.start_slot cfg.meeting_slots).contains sl &&
      decide (sl < cfg.slots_per_day))

/-- Sort key of `preprocess.py:56`: the tuple `(x.day, x.start_slot)` under Python's
(non-strict, for a stable sort) tuple order. -/
def fixedKeyLe (f1 f2 : FixedMeeting) : Prop :=
  f1.day < f2.day ∨ (f1.day = f2.day ∧ f1.start_slot ≤ f2.start_slot)

instance : DecidableRel fixedKeyLe := fun f1 f2 => by unfold fixedKeyLe; infer_instance

/-- Source: `preprocess.py:51-57` `fixed_by_team_sorted`: group the fixed meetings by team
(dict keys in first-encounter order, groups in encounter order) and stably sort each group
by `(day, start_slot)`. -/
def fixed_by_team_sorted (fixed : List FixedMeeting) : List (String × List FixedMeeting) :=
  (firstKeys (fixed.map (fun fm => fm.team_tid))).map (fun tid =>
    (tid, List.insertionSort fixedKeyLe (fixed.filter (fun fm => fm.team_tid == tid))))

/-- The inner loop body of `generate_candidates` (`preprocess.py:92-118`) for one
`(d, s)` pair: the three `continue` filters (generation-day cutoff, leader
`can_attend`, leader occupation) and on success the appended `CandidateSlot`. -/
def cand_try (tid leader : String) (cfg : AppConfig) (grid : TimeGrid)
    (can_attend occupied : String → Nat → Nat → Bool) (gs : GenStart)
    (d s : Nat) : Option CandidateSlot :=
  if d = gs.day ∧ (grid.slot_to_time s).asMinutes < gs.minutes then none
  else if can_attend leader d s then
    if (grid.meeting_slots_covered s cfg.meeting_slots).any
        (fun sl => occupied leader d sl) then none
    else some ⟨tid, d, s, grid.dt_index d s⟩
  else none

/-- One day of the `generate_candidates` day loop (`preprocess.py:86-118`): skipped when
the day is absent from the leader's availability map, else the slots `0..latest_start_slot`. -/
def cand_day (tid leader : String) (cfg : AppConfig) (grid : TimeGrid)
    (can_attend occupied : String → Nat → Nat → Bool)
    (avail_has : String → Nat → Bool) (gs : GenStart) (d : Nat) : List CandidateSlot :=
  if avail_has leader d then
    (List.range (cfg.latest_start_slot + 1)).filterMap
      (cand_try tid leader cfg grid can_attend occupied gs d)
  else []

/-- The unsorted candidate list of one team: the day loop `d = gs.date() .. deadline`
(`preprocess.py:85-120`). -/
def cand_raw (tid leader : String) (deadline : Nat) (cfg : AppConfig) (grid : TimeGrid)
    (can_attend occupied : String → Nat → Nat → Bool)
    (avail_has : String → Nat → Bool) (gs : GenStart) : List CandidateSlot :=
  (List.range' gs.day (deadline + 1 - gs.day)).flatMap
    (cand_day tid leader cfg grid can_attend occupied avail_has gs)

/-- Source: `preprocess.py:60-125` `generate_candidates`.  `teams` is `data.teams.items()`,
`avail_has leader d` is `d in data.avail.get(leader, {})`; the final
`out[tid].sort(key=lambda c: c.dt_idx)` is the stable sort by `dt_idx`. -/
def generate_candidates (teams : List (String × Team)) (cfg : AppConfig) (grid : TimeGrid)
    (can_attend occupied : String → Nat → Nat → Bool)
    (avail_has : String → Nat → Bool) (gs : GenStart) :
    List (String × List CandidateSlot) :=
  teams.map (fun tt =>
    (tt.1, List.insertionSort (fun c1 c2 => c1.dt_idx ≤ c2.dt_idx)
      (cand_raw tt.1 tt.2.leader_pid tt.2.deadline cfg grid can_attend occupied
        avail_has gs)))

/-- The full input of `solve_milp(data, pre_cand, fixed_sorted, cfg, grid)`
(`milp.py:30-36`): `data`'s fields plus the preprocessed candidate and fixed-meeting maps. -/
structure SchedInstance where
  persons : List (String × Person)
  teams : List (String × Team)
  avail_has : String → Nat → Bool
  avail_val : String → Nat → Nat → Option Int
  fixed_meetings : List FixedMeeting
  pre_cand : List (String × List CandidateSlot)
  fixed_sorted : List (String × List FixedMeeting)
  cfg : AppConfig
  grid : TimeGrid

/-- An assignment of values to the decision variables of the MILP: binaries as `Bool`,
the integer variables `w[p]`, `Wmax` as `Int`, the continuous slack `v[t,d]` as `Int`
(it has integer bounds and appears in no other constraint). -/
structure MilpAssign where
  y : String → Nat → Nat → Bool
  x : String → Nat → Nat → String → Bool
  z : String → Nat → String → Bool
  placed_day : String → Nat → Bool
  buf_ok : String → Bool
  w : String → Int
  Wmax : Int
  v : String → Nat → Int

/-- Source: `persons = list(data.persons.keys())` (`milp.py:50`). -/
def personKeys (inst : SchedInstance) : List String := inst.persons.map (fun p => p.1)

/-- Whether `data.persons[pid].is_commissioner` (false when `pid` is absent). -/
def isComm (inst : SchedInstance) (pid : String) : Bool :=
  match lookupL inst.persons pid with
  | some p => p.is_commissioner
  | none => false

/-- Whether `data.persons[pid].is_senior_commissioner` (false when `pid` is absent). -/
def isSeniorFlag (inst : SchedInstance) (pid : String) : Bool :=
  match lookupL inst.persons pid with
  | some p => p.is_senior_commissioner
  | none => false

/-- Source: `seniors = {pid for pid, p in persons if p.is_senior_commissioner and p.is_commissioner}`
(`milp.py:52`), as a list. -/
def seniorList (inst : SchedInstance) : List String :=
  (personKeys inst).filter (fun pid => isSeniorFlag inst pid && isComm inst pid)

/-- Source: `data.teams[tid]` (`milp.py`); total with a junk default — every theorem that relies on
it carries the hypothesis that `tid` is a real team key (Python would raise `KeyError`). -/
def teamOf (inst : SchedInstance) (tid : String) : Team :=
  (lookupL inst.teams tid).getD ⟨"", "", "", [], 0, 0, 0⟩

def leaderOf (inst : SchedInstance) (tid : String) : String := (teamOf inst tid).leader_pid

/-- Source: `pre_cand.get(tid, [])` (`milp.py:125,173,363`). -/
def candOf (inst : SchedInstance) (tid : String) : List CandidateSlot :=
  (lookupL inst.pre_cand tid).getD []

/-- Source: `len(fixed_sorted.get(tid, []))` (`milp.py:63`). -/
def fixedOf (inst : SchedInstance) (tid : String) : List FixedMeeting :=
  (lookupL inst.fixed_sorted tid).getD []

def fixedCountOf (inst : SchedInstance) (tid : String) : Nat := (fixedOf inst tid).length

/-- Source: `need_new = max(0, base_required + add_required - fixed_count)` (`milp.py:66-67`). -/
def needNewI (inst : SchedInstance) (tid : String) : Int :=
  max 0 ((teamOf inst tid).base_required + (teamOf inst tid).add_required -
    (fixedCountOf inst tid : Int))

/-- Source: `kmax = need_new + (1 if base_required > 0 else 0)` (`milp.py:71`), as the `Nat`
bound of the loops `range(1, kmax + 1)`. -/
def KmaxN (inst : SchedInstance) (tid : String) : Nat :=
  (needNewI inst tid + (if 0 < (teamOf inst tid).base_required then 1 else 0)).toNat

/-- The sequence indices `k` iterated by `range(1, Kmax_by_team[tid] + 1)`. -/
def kRange (inst : SchedInstance) (tid : String) : List Nat := List.range' 1 (KmaxN inst tid)

/-- The indices `k` iterated by `range(2, Kmax_by_team[tid] + 1)` (handover / ordering). -/
def kRange2 (inst : SchedInstance) (tid : String) : List Nat :=
  List.range' 2 (KmaxN inst tid - 1)

def bnat (b : Bool) : Nat := if b then 1 else 0

def dummyCand : CandidateSlot := ⟨"", 0, 0, 0⟩

/-- The candidate indices `range(len(cand_list))`. -/
def ciRange (cl : List CandidateSlot) : List Nat := List.range cl.length

/-- Source: `cand_list[ci]` (positions are always in range where the code uses it). -/
def candAt (cl : List CandidateSlot) (ci : Nat) : CandidateSlot := cl.getD ci dummyCand

/-- Source: `quicksum(y[tid,k,ci] for ci in range(len(cand_list)))`. -/
def ySumK (a : MilpAssign) (tid : String) (cl : List CandidateSlot) (k : Nat) : Nat :=
  ((ciRange cl).map (fun ci => bnat (a.y tid k ci))).sum

/-- Source: `quicksum(y[tid,k,ci] for k ... for ci ...)`. -/
def ySumAll (inst : SchedInstance) (a : MilpAssign) (tid : String)
    (cl : List CandidateSlot) : Nat :=
  ((kRange inst tid).map (fun k => ySumK a tid cl k)).sum

/-- Source: `quicksum(y[tid,k,ci] for k ... for ci with cand_list[ci].day = d)`. -/
def ySumDayAll (inst : SchedInstance) (a : MilpAssign) (tid : String)
    (cl : List CandidateSlot) (d : Nat) : Nat :=
  ((kRange inst tid).map (fun k =>
    ((ciRange cl).map (fun ci =>
      if (candAt cl ci).day = d then bnat (a.y tid k ci) else 0)).sum)).sum

/-- Source: `quicksum(x[tid,k,ci,pid] for pid in persons)`. -/
def xCountPersons (inst : SchedInstance) (a : MilpAssign) (tid : String)
    (k ci : Nat) : Nat :=
  (personKeys inst).countP (fun pid => a.x tid k ci pid)

/-- Source: `quicksum(x[tid,k,ci,pid] for ci in range(len(cand_list)))`. -/
def xSumCi (a : MilpAssign) (tid : String) (cl : List CandidateSlot) (k : Nat)
    (pid : String) : Nat :=
  ((ciRange cl).map (fun ci => bnat (a.x tid k ci pid))).sum

/-- The days of a team's candidate list (`sorted({c.day for c in cand_list})`; only
membership matters to the constraints, so first-occurrence order carries the set). -/
def daysOf (cl : List CandidateSlot) : List Nat := firstKeys (cl.map (fun c => c.day))

/-- Source: `milp.py:21-27` `_availability_penalty`: 2 ↦ `penalty.value2`, 3 ↦ `penalty.value3`,
anything else (including 4, the "excluded" code, and the default 4 of an absent cell) ↦ 0. -/
def availability_penalty (value : Int) (cfg : AppConfig) : Int :=
  if value = 2 then cfg.penalty.value2
  else if value = 3 then cfg.penalty.value3
  else 0

/-- Source: `milp.py:98-102`: per-person attendance count over `data.fixed_meetings`
(leader +1, each commissioner-tuple entry +1). -/
def fixedAttend (inst : SchedInstance) (pid : String) : Nat :=
  (inst.fixed_meetings.map (fun fm =>
    bnat (fm.leader_pid == pid) + fm.commissioner_pids.countP (fun q => q == pid))).sum

/-- Constraint (1) `at_most_one_slot` (`milp.py:116-121`). -/
def C_atMostOne (inst : SchedInstance) (a : MilpAssign) : Prop :=
  ∀ tc ∈ inst.pre_cand, ∀ k ∈ kRange inst tc.1, ySumK a tc.1 tc.2 k ≤ 1

/-- Constraint (2) `required_count` (`milp.py:123-134`). -/
def C_required (inst : SchedInstance) (a : MilpAssign) : Prop :=
  ∀ tt ∈ inst.teams,
    (fixedCountOf inst tt.1 : Int) + (ySumAll inst a tt.1 (candOf inst tt.1) : Int) ≥
      tt.2.base_required + tt.2.add_required

/-- Constraint (3) `no_multi_same_day` (`milp.py:136-150`). -/
def C_noMultiSameDay (inst : SchedInstance) (a : MilpAssign) : Prop :=
  ∀ tc ∈ inst.pre_cand, ∀ d ∈ daysOf tc.2, ySumDayAll inst a tc.1 tc.2 d ≤ 1

/-- Constraint (4) `exact4` (`milp.py:152-159`). -/
def C_exact4 (inst : SchedInstance) (a : MilpAssign) : Prop :=
  ∀ tc ∈ inst.pre_cand, ∀ k ∈ kRange inst tc.1, ∀ ci ∈ ciRange tc.2,
    xCountPersons inst a tc.1 k ci = 4 * bnat (a.y tc.1 k ci)

/-- Constraint (5) `senior2` (`milp.py:161-167`). -/
def C_senior2 (inst : SchedInstance) (a : MilpAssign) : Prop :=
  ∀ tc ∈ inst.pre_cand, ∀ k ∈ kRange inst tc.1, ∀ ci ∈ ciRange tc.2,
    (seniorList inst).countP (fun pid => a.x tc.1 k ci pid) ≥ 2 * bnat (a.y tc.1 k ci)

/-- Constraint (6) `not_comm` / `conflict` (`milp.py:170-181`): iterated over
`data.teams.items()` with `cand_list = pre_cand.get(tid, [])` and
`forbidden = set(t.member_pids) | {t.leader_pid}`. -/
def C_eligible (inst : SchedInstance) (a : MilpAssign) : Prop :=
  ∀ tt ∈ inst.teams, ∀ k ∈ kRange inst tt.1, ∀ ci ∈ ciRange (candOf inst tt.1),
    ∀ pid ∈ personKeys inst,
      (isComm inst pid = false → a.x tt.1 k ci pid = false) ∧
      (isComm inst pid = true → (pid = tt.2.leader_pid ∨ pid ∈ tt.2.member_pids) →
        a.x tt.1 k ci pid = false)

/-- One term appended to `day_to_terms[c.day][h]` at `milp.py:192-204`: the
commissioner indicator `x[tid,k,ci,pid]` plus, when `pid` is the team's leader, the
placement indicator `y[tid,k,ci]` — counted only when candidate `ci` covers hour-slot `h`
on day `d`. -/
def dbTerm (inst : SchedInstance) (a : MilpAssign) (pid : String) (d h : Nat)
    (tid : String) (cl : List CandidateSlot) (k ci : Nat) : Nat :=
  let c := candAt cl ci
  if c.day = d ∧ h ∈ inst.grid.meeting_slots_covered c.start_slot inst.cfg.meeting_slots then
    bnat (a.x tid k ci pid) + (if pid = leaderOf inst tid then bnat (a.y tid k ci) else 0)
  else 0

def dbInner2 (inst : SchedInstance) (a : MilpAssign) (pid : String) (d h : Nat)
    (tid : String) (cl : List CandidateSlot) (k : Nat) : Nat :=
  ((ciRange cl).map (fun ci => dbTerm inst a pid d h tid cl k ci)).sum

def dbInner1 (inst : SchedInstance) (a : MilpAssign) (pid : String) (d h : Nat)
    (tid : String) (cl : List CandidateSlot) : Nat :=
  ((kRange inst tid).map (fun k => dbInner2 inst a pid d h tid cl k)).sum

/-- Source: `quicksum(day_to_terms[d][h])` for person `pid` (`milp.py:206-213`). -/
def dbSum (inst : SchedInstance) (a : MilpAssign) (pid : String) (d h : Nat) : Nat :=
  (inst.pre_cand.map (fun tc => dbInner1 inst a pid d h tc.1 tc.2)).sum

/-- Constraint (7) `no_double_booking` (`milp.py:188-213`): for every `(pid, d, h)` key of
`day_to_terms` — i.e. every day/slot covered by some candidate — the term sum is `≤ 1`. -/
def C_noDouble (inst : SchedInstance) (a : MilpAssign) : Prop :=
  ∀ pid ∈ personKeys inst, ∀ tc ∈ inst.pre_cand, ∀ _k ∈ kRange inst tc.1,
    ∀ ci ∈ ciRange tc.2,
      ∀ h ∈ inst.grid.meeting_slots_covered (candAt tc.2 ci).start_slot
          inst.cfg.meeting_slots,
        dbSum inst a pid (candAt tc.2 ci).day h ≤ 1

/-- Constraint (8) `handover_fixed_to_new` for one team (`milp.py:218-241`): only for
`k = 1` (so only when `Kmax ≥ 1`, i.e. the loop over `k` runs at all) and only when the
team has fixed meetings; `prev_comm = set(fixed_list[-1].commissioner_pids)`. -/
def seamOk (inst : SchedInstance) (a : MilpAssign) (tc : String × List CandidateSlot) : Prop :=
  match (fixedOf inst tc.1).getLast? with
  | none => True
  | some lastFm =>
    0 < KmaxN inst tc.1 →
      ((ciRange tc.2).map (fun ci =>
        ((firstKeys lastFm.commissioner_pids).map (fun pid =>
          bnat (a.x tc.1 1 ci pid))).sum)).sum ≥ ySumK a tc.1 tc.2 1

instance (inst : SchedInstance) (a : MilpAssign) (tc : String × List CandidateSlot) :
    Decidable (seamOk inst a tc) := by
  unfold seamOk; split <;> infer_instance

/-- Constraint (8) over all teams with candidates. -/
def C_handoverSeam (inst : SchedInstance) (a : MilpAssign) : Prop :=
  ∀ tc ∈ inst.pre_cand, seamOk inst a tc

/-- Source: `z_le_cur` / `z_le_prev` (`milp.py:251-263`). -/
def C_zBounds (inst : SchedInstance) (a : MilpAssign) : Prop :=
  ∀ tc ∈ inst.pre_cand, ∀ k ∈ kRange2 inst tc.1, ∀ pid ∈ personKeys inst,
    bnat (a.z tc.1 k pid) ≤ xSumCi a tc.1 tc.2 k pid ∧
    bnat (a.z tc.1 k pid) ≤ xSumCi a tc.1 tc.2 (k - 1) pid

/-- Constraint (9) `handover_new_to_new` (`milp.py:265-270`). -/
def C_handoverNew (inst : SchedInstance) (a : MilpAssign) : Prop :=
  ∀ tc ∈ inst.pre_cand, ∀ k ∈ kRange2 inst tc.1,
    ((personKeys inst).map (fun pid => bnat (a.z tc.1 k pid))).sum ≥ ySumK a tc.1 tc.2 k

/-- Constraint (10) `order` (`milp.py:272-283`): for `k ≥ 2` and `ci_prev ≥ ci_cur`,
`y[k,ci_cur] + y[k-1,ci_prev] ≤ 1`. -/
def C_order (inst : SchedInstance) (a : MilpAssign) : Prop :=
  ∀ tc ∈ inst.pre_cand, ∀ k ∈ kRange2 inst tc.1,
    ∀ ci_cur ∈ ciRange tc.2, ∀ ci_prev ∈ ciRange tc.2, ci_cur ≤ ci_prev →
      bnat (a.y tc.1 k ci_cur) + bnat (a.y tc.1 (k - 1) ci_prev) ≤ 1

/-- Source: `placed_day_lb` / `placed_day_ub` (`milp.py:324-342`).  The lower bound
`placed_day ≥ (Σ y) / max_per_day` is multiplied through by `max_per_day = max(1, Kmax) > 0`. -/
def C_placedDay (inst : SchedInstance) (a : MilpAssign) : Prop :=
  ∀ tc ∈ inst.pre_cand, ∀ d ∈ daysOf tc.2,
    max 1 (KmaxN inst tc.1) * bnat (a.placed_day tc.1 d) ≥ ySumDayAll inst a tc.1 tc.2 d ∧
    bnat (a.placed_day tc.1 d) ≤ ySumDayAll inst a tc.1 tc.2 d

/-- Source: `v_consecutive` (`milp.py:344-353`): for adjacent candidate days `d, d+1`, the slack
variable (lower bound 0) dominates `placed_day d + placed_day (d+1) - 1`. -/
def C_consecDay (inst : SchedInstance) (a : MilpAssign) : Prop :=
  ∀ tc ∈ inst.pre_cand, ∀ d ∈ daysOf tc.2, (d + 1) ∈ daysOf tc.2 →
    a.v tc.1 d ≥ 0 ∧
    a.v tc.1 d ≥ (bnat (a.placed_day tc.1 d) : Int) + (bnat (a.placed_day tc.1 (d + 1)) : Int) - 1

/-- Source: `buf_ok1` / `buf_ok2` (`milp.py:362-373`), big-M linearization with
`M = fixed_count + Kmax`. -/
def C_buf (inst : SchedInstance) (a : MilpAssign) : Prop :=
  ∀ tt ∈ inst.teams,
    (fixedCountOf inst tt.1 : Int) + (ySumAll inst a tt.1 (candOf inst tt.1) : Int) ≥
      (tt.2.base_required + 1) -
        ((fixedCountOf inst tt.1 : Int) + (KmaxN inst tt.1 : Int)) *
          (1 - (bnat (a.buf_ok tt.1) : Int)) ∧
    (fixedCountOf inst tt.1 : Int) + (ySumAll inst a tt.1 (candOf inst tt.1) : Int) ≤
      tt.2.base_required +
        ((fixedCountOf inst tt.1 : Int) + (KmaxN inst tt.1 : Int)) *
          (bnat (a.buf_ok tt.1) : Int)

/-- The right-hand side of `w_def` (`milp.py:380-391`). -/
def wExprNew (inst : SchedInstance) (a : MilpAssign) (pid : String) : Nat :=
  (inst.pre_cand.map (fun tc =>
    ((kRange inst tc.1).map (fun k =>
      ((ciRange tc.2).map (fun ci =>
        (if pid = leaderOf inst tc.1 then bnat (a.y tc.1 k ci) else 0) +
          bnat (a.x tc.1 k ci pid))).sum)).sum)).sum

def wExpr (inst : SchedInstance) (a : MilpAssign) (pid : String) : Int :=
  (fixedAttend inst pid : Int) + (wExprNew inst a pid : Int)

/-- Source: `w_def` plus the variable lower bound `w[p] ≥ 0` (`milp.py:84,391`). -/
def C_w (inst : SchedInstance) (a : MilpAssign) : Prop :=
  ∀ pid ∈ personKeys inst, a.w pid = wExpr inst a pid ∧ a.w pid ≥ 0

/-- Source: `Wmax_ge` plus the variable lower bound `Wmax ≥ 0` (`milp.py:85,392`). -/
def C_Wmax (inst : SchedInstance) (a : MilpAssign) : Prop :=
  a.Wmax ≥ 0 ∧ ∀ pid ∈ personKeys inst, a.Wmax ≥ a.w pid

/-- The complete hard-constraint system of `solve_milp` (`milp.py:114-392`): the contract
of the MILP backend is that any assignment it returns (optimal or incumbent) satisfies
exactly these constraints with integral values. -/
def MilpSat (inst : SchedInstance) (a : MilpAssign) : Prop :=
  C_atMostOne inst a ∧ C_required inst a ∧ C_noMultiSameDay inst a ∧ C_exact4 inst a ∧
  C_senior2 inst a ∧ C_eligible inst a ∧ C_noDouble inst a ∧ C_handoverSeam inst a ∧
  C_zBounds inst a ∧ C_handoverNew inst a ∧ C_order inst a ∧ C_placedDay inst a ∧
  C_consecDay inst a ∧ C_buf inst a ∧ C_w inst a ∧ C_Wmax inst a

/-- One iteration of the reconstruction loop body (`milp.py:442-494`) for sequence index
`k` of team `tid`: find the first candidate `ci` with `y[tid,k,ci].X > 0.5` (skip `k` when
none), collect at most 4 assigned commissioners (skip on a count mismatch), number the
meeting `len(fixed_list) + k`, and compute the handover person from the previous fixed or
new meeting. -/
def recOneAt (inst : SchedInstance) (a : MilpAssign) (tid : String) (cl : List CandidateSlot)
    (fl : List FixedMeeting) (k ci : Nat) : Option SolutionMeeting :=
  let c := candAt cl ci
  let comms := ((personKeys inst).filter (fun pid => a.x tid k ci pid)).take 4
  if comms.length = 4 then
    let base_no := fl.length
    let meeting_no := base_no + k
    let handover : Option String :=
      if 2 ≤ meeting_no then
        let prev_comm_set : List String :=
          if meeting_no - 1 ≤ base_no ∧ 0 < base_no then
            (fl.getD (meeting_no - 2) ⟨"", 0, 0, "", [], none⟩).commissioner_pids
          else
            match (List.range cl.length).find? (fun ci2 => a.y tid (k - 1) ci2) with
            | none => []
            | some prev_ci => (personKeys inst).filter (fun pid => a.x tid (k - 1) prev_ci pid)
        (comms.filter (fun pid => prev_comm_set.contains pid)).head?
      else none
    some { team_tid := tid, day := c.day, start_slot := c.start_slot,
           leader_pid := leaderOf inst tid, commissioner_pids := comms,
           meeting_no := meeting_no, handover_person_pid := handover }
  else none

def recOne (inst : SchedInstance) (a : MilpAssign) (tid : String) (cl : List CandidateSlot)
    (fl : List FixedMeeting) (k : Nat) : Option SolutionMeeting :=
  ((List.range cl.length).find? (fun ci => a.y tid k ci)).bind
    (fun ci => recOneAt inst a tid cl fl k ci)

/-- The reconstruction loop (`milp.py:436-494`): iterate `pre_cand.items()`, and for each
team the sequence indices `k = 1 .. Kmax`. -/
def reconstructMeetings (inst : SchedInstance) (a : MilpAssign) : List SolutionMeeting :=
  inst.pre_cand.flatMap (fun tc =>
    (kRange inst tc.1).filterMap (fun k => recOne inst a tc.1 tc.2 (fixedOf inst tc.1) k))

/-- The Gurobi termination statuses distinguished by `solve_milp` (`milp.py:417-433`):
`GRB.INFEASIBLE`, `GRB.INF_OR_UNBD`, `GRB.OPTIMAL`, `GRB.TIME_LIMIT`, `GRB.SUBOPTIMAL`,
and any other numeric code. -/
inductive GrbStatus where
  | optimal
  | infeasible
  | infOrUnbd
  | timeLimit
  | suboptimal
  | other (code : Nat)
deriving DecidableEq

/-- Whether the reconstruction loop performs at least one `y[...].X` attribute read:
it does exactly when some team has a sequence index and a candidate. -/
def readsSolutionValues (inst : SchedInstance) : Bool :=
  inst.pre_cand.any (fun tc => decide (0 < KmaxN inst tc.1) && decide (0 < tc.2.length))

/-- Source: `solve_milp` after `m.optimize()` returns (`milp.py:415-496`).  The solver outcome is
`status` plus `sol`, the incumbent assignment (`none` when `SolCount = 0`); `iis` is the
text assembled from `computeIIS` (external, `None` when unavailable).
On `INFEASIBLE`/`INF_OR_UNBD` the result is infeasible; any status outside
`{OPTIMAL, TIME_LIMIT, SUBOPTIMAL}` yields `STATUS_<code>`; otherwise the code
reconstructs the solution — and if there is no incumbent, the first `.X` read raises a
`GurobiError` (the `Except.error` branch), so no `SolveResult` is produced at all. -/
def solve_milp_post (inst : SchedInstance) (status : GrbStatus) (sol : Option MilpAssign)
    (iis : Option String) : Except String SolveResult :=
  match status with
  | GrbStatus.infeasible =>
    Except.ok { feasible := false, status := "INFEASIBLE", meetings := [], iis_summary := iis }
  | GrbStatus.infOrUnbd =>
    Except.ok { feasible := false, status := "INFEASIBLE", meetings := [], iis_summary := iis }
  | GrbStatus.other code =>
    Except.ok { feasible := false, status := "STATUS_" ++ toString code, meetings := [],
                iis_summary := none }
  | GrbStatus.optimal =>
    match sol with
    | some a =>
      Except.ok { feasible := true, status := "OPTIMAL",
                  meetings := reconstructMeetings inst a, iis_summary := none }
    | none =>
      if readsSolutionValues inst then
        Except.error "GurobiError: Unable to retrieve attribute X"
      else
        Except.ok { feasible := true, status := "OPTIMAL", meetings := [], iis_summary := none }
  | GrbStatus.timeLimit =>
    match sol with
    | some a =>
      Except.ok { feasible := true, status := "FEASIBLE",
                  meetings := reconstructMeetings inst a, iis_summary := none }
    | none =>
      if readsSolutionValues inst then
        Except.error "GurobiError: Unable to retrieve attribute X"
      else
        Except.ok { feasible := true, status := "FEASIBLE", meetings := [], iis_summary := none }
  | GrbStatus.suboptimal =>
    match sol with
    | some a =>
      Except.ok { feasible := true, status := "FEASIBLE",
                  meetings := reconstructMeetings inst a, iis_summary := none }
    | none =>
      if readsSolutionValues inst then
        Except.error "GurobiError: Unable to retrieve attribute X"
      else
        Except.ok { feasible := true, status := "FEASIBLE", meetings := [], iis_summary := none }

/-- The participants of a solution meeting: its leader plus its 4 commissioners
(spec §8, invariant 3). -/
def meetingParts (m : SolutionMeeting) : List String := m.leader_pid :: m.commissioner_pids

/-- The participants of a fixed meeting. -/
def fixedParts (fm : FixedMeeting) : List String := fm.leader_pid :: fm.commissioner_pids

/-- A meeting reduced to what the overlap invariant talks about: its date, its start slot
and its participant list. -/
structure MeetingView where
  day : Nat
  start_slot : Nat
  parts : List String
deriving DecidableEq

def viewsOfFixed (fms : List FixedMeeting) : List MeetingView :=
  fms.map (fun fm => ⟨fm.day, fm.start_slot, fixedParts fm⟩)

def viewsOfNew (ms : List SolutionMeeting) : List MeetingView :=
  ms.map (fun m => ⟨m.day, m.start_slot, meetingParts m⟩)

/-- The slot-coverage intervals `[s, s + meeting_slots)` of two start slots intersect. -/
def SlotsOverlap (cfg : AppConfig) (grid : TimeGrid) (s1 s2 : Nat) : Prop :=
  ∃ h ∈ grid.meeting_slots_covered s1 cfg.meeting_slots,
    h ∈ grid.meeting_slots_covered s2 cfg.meeting_slots

/-- Two meetings do not double-book anybody: same date plus overlapping coverage forces
disjoint participant lists. -/
def ViewsCompatible (cfg : AppConfig) (grid : TimeGrid) (v1 v2 : MeetingView) : Prop :=
  v1.day = v2.day → SlotsOverlap cfg grid v1.start_slot v2.start_slot →
    ∀ p ∈ v1.parts, p ∉ v2.parts

/-- Spec §8 invariant 3 for a list of meetings: no person participates in two of them
with overlapping slot coverage on the same date. -/
def NoParticipantOverlap (cfg : AppConfig) (grid : TimeGrid) (vs : List MeetingView) : Prop :=
  List.Pairwise (ViewsCompatible cfg grid) vs

/-- Whether a stored availability cell reads as a code in `{1, 2, 3}` (spec: the codes a
participant may be scheduled on). -/
def availCode123 (o : Option Int) : Bool :=
  match o with
  | some v => v == 1 || v == 2 || v == 3
  | none => false

/-- Strict lexicographic order on `(date, start_slot)` pairs. -/
def dsLt (p q : Nat × Nat) : Prop := p.1 < q.1 ∨ (p.1 = q.1 ∧ p.2 < q.2)

instance : DecidableRel dsLt := fun p q => by unfold dsLt; infer_instance

/-- Sort key order of "new meetings sorted by sequence number". -/
def noLe (m1 m2 : SolutionMeeting) : Prop := m1.meeting_no ≤ m2.meeting_no

instance : DecidableRel noLe := fun m1 m2 => by unfold noLe; infer_instance

/-- The `(date, start_slot)` chain of spec §8 invariant 4 for one team: its fixed meetings
as sorted by `fixed_by_team_sorted`, followed by its returned new meetings sorted by
sequence number. -/
def teamChain (inst : SchedInstance) (ms : List SolutionMeeting) (tid : String) :
    List (Nat × Nat) :=
  (fixedOf inst tid).map (fun fm => (fm.day, fm.start_slot)) ++
    (List.insertionSort noLe (ms.filter (fun m => m.team_tid == tid))).map
      (fun m => (m.day, m.start_slot))

/-- Spec §8 invariant 4 for one team: the chain is strictly increasing. -/
def TeamChainStrict (inst : SchedInstance) (ms : List SolutionMeeting) (tid : String) : Prop :=
  List.Pairwise dsLt (teamChain inst ms tid)

instance (inst : SchedInstance) (a : MilpAssign) : Decidable (C_atMostOne inst a) := by
  unfold C_atMostOne; infer_instance

instance (inst : SchedInstance) (a : MilpAssign) : Decidable (C_required inst a) := by
  unfold C_required; infer_instance

instance (inst : SchedInstance) (a : MilpAssign) : Decidable (C_noMultiSameDay inst a) := by
  unfold C_noMultiSameDay; infer_instance

instance (inst : SchedInstance) (a : MilpAssign) : Decidable (C_exact4 inst a) := by
  unfold C_exact4; infer_instance

instance (inst : SchedInstance) (a : MilpAssign) : Decidable (C_senior2 inst a) := by
  unfold C_senior2; infer_instance

instance (inst : SchedInstance) (a : MilpAssign) : Decidable (C_eligible inst a) := by
  unfold C_eligible; infer_instance

instance (inst : SchedInstance) (a : MilpAssign) : Decidable (C_noDouble inst a) := by
  unfold C_noDouble; infer_instance

instance (inst : SchedInstance) (a : MilpAssign) : Decidable (C_handoverSeam inst a) := by
  unfold C_handoverSeam; infer_instance

instance (inst : SchedInstance) (a : MilpAssign) : Decidable (C_zBounds inst a) := by
  unfold C_zBounds; infer_instance

instance (inst : SchedInstance) (a : MilpAssign) : Decidable (C_handoverNew inst a) := by
  unfold C_handoverNew; infer_instance

instance (inst : SchedInstance) (a : MilpAssign) : Decidable (C_order inst a) := by
  unfold C_order; infer_instance

instance (inst : SchedInstance) (a : MilpAssign) : Decidable (C_placedDay inst a) := by
  unfold C_placedDay; infer_instance

instance (inst : SchedInstance) (a : MilpAssign) : Decidable (C_consecDay inst a) := by
  unfold C_consecDay; infer_instance

instance (inst : SchedInstance) (a : MilpAssign) : Decidable (C_buf inst a) := by
  unfold C_buf; infer_instance

instance (inst : SchedInstance) (a : MilpAssign) : Decidable (C_w inst a) := by
  unfold C_w; infer_instance

instance (inst : SchedInstance) (a : MilpAssign) : Decidable (C_Wmax inst a) := by
  unfold C_Wmax; infer_instance

instance (inst : SchedInstance) (a : MilpAssign) : Decidable (MilpSat inst a) := by
  unfold MilpSat; infer_instance

instance (cfg : AppConfig) (grid : TimeGrid) (s1 s2 : Nat) :
    Decidable (SlotsOverlap cfg grid s1 s2) := by
  unfold SlotsOverlap; infer_instance

instance (cfg : AppConfig) (grid : TimeGrid) (v1 v2 : MeetingView) :
    Decidable (ViewsCompatible cfg grid v1 v2) := by
  unfold ViewsCompatible; infer_instance

instance (cfg : AppConfig) (grid : TimeGrid) (vs : List MeetingView) :
    Decidable (NoParticipantOverlap cfg grid vs) := by
  unfold NoParticipantOverlap; infer_instance

instance (inst : SchedInstance) (ms : List SolutionMeeting) (tid : String) :
    Decidable (TeamChainStrict inst ms tid) := by
  unfold TeamChainStrict; infer_instance

/-- Generation start used by the concrete scenarios: day ordinal 100, 09:00. -/
def gs100 : GenStart := ⟨100, 9, 0⟩

/-- Scenario W (a minimal fully-valid instance, spec §8 S1): one team `T1` led by `L`
(`base_required = 1`), four commissioners `A`, `B` (senior), `C`, `D`, the leader available
on day 100 for slots 0–3 only, no fixed meetings; the single candidate is `(100, 0)`. -/
def instW : SchedInstance :=
  { persons := [("L", ⟨"L", "L", false, false⟩), ("A", ⟨"A", "A", true, true⟩),
                ("B", ⟨"B", "B", true, true⟩), ("C", ⟨"C", "C", true, false⟩),
                ("D", ⟨"D", "D", true, false⟩)],
    teams := [("T1", ⟨"T1", "Team One", "L", [], 100, 1, 0⟩)],
    avail_has := fun p d => p == "L" && d == 100,
    avail_val := fun p d s => if p = "L" ∧ d = 100 ∧ s ≤ 3 then some 1 else none,
    fixed_meetings := [],
    pre_cand := [("T1", [⟨"T1", 100, 0, 10000⟩])],
    fixed_sorted := [],
    cfg := {}, grid := {} }

/-- A feasible, integral assignment for `instW`: the meeting is placed at the single
candidate with commissioners `A`, `B`, `C`, `D`. -/
def assignW : MilpAssign :=
  { y := fun tid k ci => tid == "T1" && k == 1 && ci == 0,
    x := fun tid k ci pid => tid == "T1" && k == 1 && ci == 0 &&
      (pid == "A" || pid == "B" || pid == "C" || pid == "D"),
    z := fun _ _ _ => false,
    placed_day := fun tid d => tid == "T1" && d == 100,
    buf_ok := fun _ => false,
    w := fun pid =>
      if pid = "L" ∨ pid = "A" ∨ pid = "B" ∨ pid = "C" ∨ pid = "D" then 1 else 0,
    Wmax := 1,
    v := fun _ _ => 0 }

/-- Scenario 1 (double booking across the fixed/new boundary): team `T1` (leader `L1`) has
a pre-committed fixed meeting on day 100 slots 0–3 staffed by `A`, `B`, `C`, `D2`; team
`T2` (leader `L2`) needs one new meeting and its only candidate is day 100 slot 0 — the
projector only filters by the leader `L2`, so nothing stops commissioner `A` from being
assigned there as well. -/
def fmC1 : FixedMeeting := ⟨"T1", 100, 0, "L1", ["A", "B", "C", "D2"], none⟩

def instC1 : SchedInstance :=
  { persons := [("L1", ⟨"L1", "L1", false, false⟩), ("L2", ⟨"L2", "L2", false, false⟩),
                ("A", ⟨"A", "A", true, true⟩), ("B", ⟨"B", "B", true, true⟩),
                ("C", ⟨"C", "C", true, false⟩), ("D2", ⟨"D2", "D2", true, false⟩),
                ("P2", ⟨"P2", "P2", true, true⟩), ("P3", ⟨"P3", "P3", true, false⟩),
                ("P4", ⟨"P4", "P4", true, false⟩)],
    teams := [("T1", ⟨"T1", "Team One", "L1", [], 100, 1, 0⟩),
              ("T2", ⟨"T2", "Team Two", "L2", [], 100, 1, 0⟩)],
    avail_has := fun p d => (p == "L2" || p == "A") && d == 100,
    avail_val := fun p d s =>
      if (p = "L2" ∨ p = "A") ∧ d = 100 ∧ s ≤ 3 then some 1 else none,
    fixed_meetings := [fmC1],
    pre_cand := [("T1", []), ("T2", [⟨"T2", 100, 0, 10000⟩])],
    fixed_sorted := [("T1", [fmC1])],
    cfg := {}, grid := {} }

/-- A feasible, integral assignment for `instC1` placing `T2`'s new meeting at `(100, 0)`
with commissioners `A`, `P2`, `P3`, `P4` — double-booking `A` against the fixed meeting. -/
def assignC1 : MilpAssign :=
  { y := fun tid k ci => tid == "T2" && k == 1 && ci == 0,
    x := fun tid k ci pid => tid == "T2" && k == 1 && ci == 0 &&
      (pid == "A" || pid == "P2" || pid == "P3" || pid == "P4"),
    z := fun _ _ _ => false,
    placed_day := fun tid d => tid == "T2" && d == 100,
    buf_ok := fun _ => false,
    w := fun pid =>
      if pid = "A" then 2
      else if pid = "L1" ∨ pid = "L2" ∨ pid = "B" ∨ pid = "C" ∨ pid = "D2" ∨
        pid = "P2" ∨ pid = "P3" ∨ pid = "P4" then 1
      else 0,
    Wmax := 2,
    v := fun _ _ => 0 }

/-- Scenario 2 (commissioner with availability code 4): like `instW` but the pool is `A`,
`B`, `P3`, `P4` and `P3`'s availability on day 100 is code 4 everywhere — no hard
constraint consults a commissioner's availability, only the (finite, and 0-for-code-4)
penalty does. -/
def instC2 : SchedInstance :=
  { persons := [("L", ⟨"L", "L", false, false⟩), ("A", ⟨"A", "A", true, true⟩),
                ("B", ⟨"B", "B", true, true⟩), ("P3", ⟨"P3", "P3", true, false⟩),
                ("P4", ⟨"P4", "P4", true, false⟩)],
    teams := [("T1", ⟨"T1", "Team One", "L", [], 100, 1, 0⟩)],
    avail_has := fun p d => (p == "L" || p == "P3") && d == 100,
    avail_val := fun p d s =>
      if p = "L" ∧ d = 100 ∧ s ≤ 3 then some 1
      else if p = "P3" ∧ d = 100 ∧ s ≤ 25 then some 4
      else none,
    fixed_meetings := [],
    pre_cand := [("T1", [⟨"T1", 100, 0, 10000⟩])],
    fixed_sorted := [],
    cfg := {}, grid := {} }

/-- A feasible, integral assignment for `instC2` staffing the meeting with `A`, `B`,
`P3`, `P4` — including `P3`, whose availability code on every covered slot is 4. -/
def assignC2 : MilpAssign :=
  { y := fun tid k ci => tid == "T1" && k == 1 && ci == 0,
    x := fun tid k ci pid => tid == "T1" && k == 1 && ci == 0 &&
      (pid == "A" || pid == "B" || pid == "P3" || pid == "P4"),
    z := fun _ _ _ => false,
    placed_day := fun tid d => tid == "T1" && d == 100,
    buf_ok := fun _ => false,
    w := fun pid =>
      if pid = "L" ∨ pid = "A" ∨ pid = "B" ∨ pid = "P3" ∨ pid = "P4" then 1 else 0,
    Wmax := 1,
    v := fun _ _ => 0 }

/-- Scenario 3 (new meeting earlier than a fixed meeting): team `T1` (leader `L`,
`base_required = 2`, deadline 106) has one fixed meeting on day 105, but the leader's only
available candidate day is 100 — the candidate filter never compares against fixed-meeting
dates, so the required second meeting lands before the first. -/
def fmC3 : FixedMeeting := ⟨"T1", 105, 0, "L", ["A", "B", "C", "D"], none⟩

def instC3 : SchedInstance :=
  { persons := [("L", ⟨"L", "L", false, false⟩), ("A", ⟨"A", "A", true, true⟩),
                ("B", ⟨"B", "B", true, true⟩), ("C", ⟨"C", "C", true, false⟩),
                ("D", ⟨"D", "D", true, false⟩)],
    teams := [("T1", ⟨"T1", "Team One", "L", [], 106, 2, 0⟩)],
    avail_has := fun p d => p == "L" && d == 100,
    avail_val := fun p d s => if p = "L" ∧ d = 100 ∧ s ≤ 3 then some 1 else none,
    fixed_meetings := [fmC3],
    pre_cand := [("T1", [⟨"T1", 100, 0, 10000⟩])],
    fixed_sorted := [("T1", [fmC3])],
    cfg := {}, grid := {} }

/-- A feasible, integral assignment for `instC3`: the new meeting at `(100, 0)` reuses the
fixed meeting's commissioners (satisfying the seam handover), yet precedes it. -/
def assignC3 : MilpAssign :=
  { y := fun tid k ci => tid == "T1" && k == 1 && ci == 0,
    x := fun tid k ci pid => tid == "T1" && k == 1 && ci == 0 &&
      (pid == "A" || pid == "B" || pid == "C" || pid == "D"),
    z := fun _ _ _ => false,
    placed_day := fun tid d => tid == "T1" && d == 100,
    buf_ok := fun _ => false,
    w := fun pid =>
      if pid = "L" ∨ pid = "A" ∨ pid = "B" ∨ pid = "C" ∨ pid = "D" then 2 else 0,
    Wmax := 2,
    v := fun _ _ => 0 }

/-- The candidate conditions of spec §4.2 for a team `t` and pair `(d, s)`: within the
generation window and deadline, not earlier in the day than the generation start on its
own day, leader can attend, no covered slot occupied for the leader, and the day present
in the leader's availability map. -/
def candConditions (t : Team) (cfg : AppConfig) (grid : TimeGrid)
    (can_attend occupied : String → Nat → Nat → Bool) (avail_has : String → Nat → Bool)
    (gs : GenStart) (d s : Nat) : Prop :=
  gs.day ≤ d ∧ d ≤ t.deadline ∧ s ≤ cfg.latest_start_slot ∧
  (d = gs.day → gs.minutes ≤ (grid.slot_to_time s).asMinutes) ∧
  can_attend t.leader_pid d s = true ∧
  (∀ sl ∈ grid.meeting_slots_covered s cfg.meeting_slots,
    occupied t.leader_pid d sl = false) ∧
  avail_has t.leader_pid d = true

instance (t : Team) (cfg : AppConfig) (grid : TimeGrid)
    (can_attend occupied : String → Nat → Nat → Bool) (avail_has : String → Nat → Bool)
    (gs : GenStart) (d s : Nat) :
    Decidable (candConditions t cfg grid can_attend occupied avail_has gs d s) := by
  unfold candConditions; infer_instance

theorem bnat_eq_one_iff {b : Bool} : bnat b = 1 ↔ b = true := by
  cases b <;> simp [bnat]

theorem bnat_pos_iff {b : Bool} : 0 < bnat b ↔ b = true := by
  cases b <;> simp [bnat]

theorem bnat_le_one (b : Bool) : bnat b ≤ 1 := by
  cases b <;> simp [bnat]

theorem lookupL_mem {β : Type} : ∀ {l : List (String × β)} {k : String} {v : β},
    lookupL l k = some v → (k, v) ∈ l := by
  intro l
  induction l with
  | nil => intro k v h; cases h
  | cons p rest ih =>
    intro k v h
    unfold lookupL at h
    by_cases hk : k = p.1
    · rw [if_pos hk] at h
      cases h
      subst hk
      exact List.mem_cons_self _ _
    · rw [if_neg hk] at h
      exact List.mem_cons_of_mem _ (ih h)

theorem lookupL_eq_some_of_mem {β : Type} :
    ∀ {l : List (String × β)}, (l.map Prod.fst).Nodup →
      ∀ {k : String} {v : β}, (k, v) ∈ l → lookupL l k = some v := by
  intro l
  induction l with
  | nil => intro _ k v h; cases h
  | cons p rest ih =>
    intro hnd k v h
    rw [List.map_cons, List.nodup_cons] at hnd
    cases h with
    | head => unfold lookupL; rw [if_pos rfl]
    | tail _ hmem =>
      unfold lookupL
      by_cases hk : k = p.1
      · exfalso
        apply hnd.1
        rw [← hk]
        exact List.mem_map_of_mem Prod.fst hmem
      · rw [if_neg hk]
        exact ih hnd.2 hmem

theorem le_sum_map_of_mem {α : Type} {l : List α} (f : α → Nat) {a : α} (h : a ∈ l) :
    f a ≤ (l.map f).sum :=
  List.single_le_sum (fun x _ => Nat.zero_le x) (f a) (List.mem_map_of_mem f h)

theorem exists_pos_of_sum_map_pos {α : Type} {l : List α} {f : α → Nat}
    (h : 0 < (l.map f).sum) : ∃ a ∈ l, 0 < f a := by
  by_contra hno
  push_neg at hno
  have : (l.map f).sum = 0 := by
    apply List.sum_eq_zero
    intro x hx
    obtain ⟨a, ha, rfl⟩ := List.mem_map.mp hx
    exact Nat.le_zero.mp (hno a ha)
  omega

theorem two_le_sum_map {α : Type} :
    ∀ {l : List α}, l.Nodup → ∀ (f : α → Nat) {a b : α}, a ∈ l → b ∈ l → a ≠ b →
      1 ≤ f a → 1 ≤ f b → 2 ≤ (l.map f).sum := by
  intro l
  induction l with
  | nil => intro _ f a b ha; cases ha
  | cons c t ih =>
    intro hnd f a b ha hb hne hfa hfb
    rw [List.nodup_cons] at hnd
    rw [List.map_cons, List.sum_cons]
    cases ha with
    | head =>
      cases hb with
      | head => exact absurd rfl hne
      | tail _ hbt =>
        have := le_sum_map_of_mem f hbt
        omega
    | tail _ hat =>
      cases hb with
      | head =>
        have := le_sum_map_of_mem f hat
        omega
      | tail _ hbt =>
        have := ih hnd.2 f hat hbt hne hfa hfb
        omega

theorem pairwise_filterMap_mem {α β : Type} {R : α → α → Prop} {S : β → β → Prop}
    (f : α → Option β) :
    ∀ {l : List α}, l.Pairwise R →
      (∀ a ∈ l, ∀ b ∈ l, R a b → ∀ x, f a = some x → ∀ y, f b = some y → S x y) →
      (l.filterMap f).Pairwise S := by
  intro l
  induction l with
  | nil => intro _ _; simp
  | cons a t ih =>
    intro hp H
    rw [List.pairwise_cons] at hp
    rw [List.filterMap_cons]
    cases hfa : f a with
    | none =>
      exact ih hp.2 (fun c hc d hd hr => H c (List.mem_cons_of_mem _ hc)
        d (List.mem_cons_of_mem _ hd) hr)
    | some x =>
      rw [List.pairwise_cons]
      constructor
      · intro y hy
        obtain ⟨b, hb, hfb⟩ := List.mem_filterMap.mp hy
        exact H a (List.mem_cons_self _ _) b (List.mem_cons_of_mem _ hb) (hp.1 b hb) x hfa y hfb
      · exact ih hp.2 (fun c hc d hd hr => H c (List.mem_cons_of_mem _ hc)
          d (List.mem_cons_of_mem _ hd) hr)

theorem orderedInsert_of_rel {α : Type} (r : α → α → Prop) [DecidableRel r] {a : α} :
    ∀ {l : List α}, (∀ b ∈ l, r a b) → List.orderedInsert r a l = a :: l := by
  intro l
  cases l with
  | nil => intro _; rfl
  | cons b t =>
    intro h
    unfold List.orderedInsert
    rw [if_pos (h b (List.mem_cons_self _ _))]

theorem insertionSort_eq_self {α : Type} (r : α → α → Prop) [DecidableRel r] :
    ∀ {l : List α}, l.Pairwise r → List.insertionSort r l = l := by
  intro l
  induction l with
  | nil => intro _; rfl
  | cons a t ih =>
    intro hp
    rw [List.pairwise_cons] at hp
    unfold List.insertionSort
    rw [ih hp.2]
    exact orderedInsert_of_rel r hp.1

/-- C1 (counterexample): the claim "no person appears as a participant in two meetings —
counting both fixed meetings and returned new meetings — whose slot-coverage intervals
overlap on the same date" is false.  In `instC1` the candidate projector filters only by
the *leader's* occupation, and constraint (7) covers only new-new pairs, so the solver may
return (here: status `TIME_LIMIT` with this feasible incumbent, status string `FEASIBLE`)
a new meeting for team `T2` on day 100, slots 0–3, staffed with commissioner `A` — who
already sits in team `T1`'s fixed meeting on the very same day and slots. -/
theorem C1_counterexample :
    MilpSat instC1 assignC1 ∧
    instC1.pre_cand = generate_candidates instC1.teams instC1.cfg instC1.grid
      (build_can_attend_at instC1.cfg instC1.grid instC1.avail_has instC1.avail_val)
      (build_occupied_at instC1.cfg instC1.grid instC1.fixed_meetings)
      instC1.avail_has gs100 ∧
    instC1.fixed_sorted = fixed_by_team_sorted instC1.fixed_meetings ∧
    solve_milp_post instC1 GrbStatus.timeLimit (some assignC1) none =
      Except.ok { feasible := true, status := "FEASIBLE",
                  meetings := reconstructMeetings instC1 assignC1, iis_summary := none } ∧
    ¬ NoParticipantOverlap instC1.cfg instC1.grid
        (viewsOfFixed instC1.fixed_meetings ++
          viewsOfNew (reconstructMeetings instC1 assignC1)) :=
  ⟨by decide, by decide, by decide, rfl, by decide⟩

/-- C2 (counterexample): the claim "every assigned participant has availability code in
{1,2,3} on all covered slots / the code-4 penalty is never activated because 4-cells are
excluded by the projector" is false for commissioners.  The projector excludes 4-cells
only for the team leader; no hard constraint consults a commissioner's availability, and
`_availability_penalty` returns 0 (not +∞) for code 4 — so in `instC2` the solver may
return a meeting staffed with `P3`, whose availability is code 4 on every covered slot. -/
theorem C2_counterexample :
    MilpSat instC2 assignC2 ∧
    instC2.pre_cand = generate_candidates instC2.teams instC2.cfg instC2.grid
      (build_can_attend_at instC2.cfg instC2.grid instC2.avail_has instC2.avail_val)
      (build_occupied_at instC2.cfg instC2.grid instC2.fixed_meetings)
      instC2.avail_has gs100 ∧
    solve_milp_post instC2 GrbStatus.timeLimit (some assignC2) none =
      Except.ok { feasible := true, status := "FEASIBLE",
                  meetings := reconstructMeetings instC2 assignC2, iis_summary := none } ∧
    availability_penalty 4 instC2.cfg = 0 ∧
    ¬ (∀ m ∈ reconstructMeetings instC2 assignC2, ∀ p ∈ meetingParts m,
        ∀ sl ∈ instC2.grid.meeting_slots_covered m.start_slot instC2.cfg.meeting_slots,
          availCode123 (instC2.avail_val p m.day sl) = true) :=
  ⟨by decide, by decide, rfl, rfl, by decide⟩

/-- C3 (counterexample): the claim "the concatenation of a team's fixed meetings sorted by
(date, start_slot) followed by its returned new meetings sorted by sequence number is
strictly increasing by (date, start_slot) — in particular every new meeting is strictly
later than every fixed meeting of the same team" is false.  `generate_candidates` never
compares candidates against fixed-meeting dates (it only filters days by the leader's
availability map and occupation), so in `instC3` the required second meeting of `T1`
(sequence number 2) is placed on day 100 while the fixed meeting (sequence 1) sits on
day 105. -/
theorem C3_counterexample :
    MilpSat instC3 assignC3 ∧
    instC3.pre_cand = generate_candidates instC3.teams instC3.cfg instC3.grid
      (build_can_attend_at instC3.cfg instC3.grid instC3.avail_has instC3.avail_val)
      (build_occupied_at instC3.cfg instC3.grid instC3.fixed_meetings)
      instC3.avail_has gs100 ∧
    instC3.fixed_sorted = fixed_by_team_sorted instC3.fixed_meetings ∧
    solve_milp_post instC3 GrbStatus.timeLimit (some assignC3) none =
      Except.ok { feasible := true, status := "FEASIBLE",
                  meetings := reconstructMeetings instC3 assignC3, iis_summary := none } ∧
    ¬ TeamChainStrict instC3 (reconstructMeetings instC3 assignC3) "T1" :=
  ⟨by decide, by decide, by decide, rfl, by decide⟩

/-- C4: the claim "if the solver terminates at its time limit with no incumbent,
solve_milp returns feasible=false, status=TIME_LIMIT" does not hold of the code:
`GRB.TIME_LIMIT` passes the `status not in (OPTIMAL, TIME_LIMIT, SUBOPTIMAL)` guard
(`milp.py:432`), so the code proceeds to reconstruction and the first `y[...].X` read
raises (no solution attribute is available when `SolCount = 0`) — the function never
builds a `SolveResult` with status `"TIME_LIMIT"` at all. -/
theorem C4_time_limit_without_incumbent_raises :
    solve_milp_post instW GrbStatus.timeLimit none none =
      Except.error "GurobiError: Unable to retrieve attribute X" ∧
    solve_milp_post instW GrbStatus.timeLimit none none ≠
      Except.ok { feasible := false, status := "TIME_LIMIT", meetings := [],
                  iis_summary := none } :=
  ⟨rfl, fun h => Except.noConfusion h⟩

/-- C7: for every team, `solve_milp` computes the required new-meeting count as
`N_t = max(0, base_required + add_required − F_t)` (with `F_t` the team's fixed-meeting
count) and iterates new sequence indices `k = 1..K_t` where `K_t = N_t + 1` exactly when
`base_required > 0` (regardless of `add_required`) and `K_t = N_t` otherwise. -/
theorem C7_new_meeting_budget (inst : SchedInstance)
    (hkeys : (inst.teams.map Prod.fst).Nodup) :
    ∀ tt ∈ inst.teams,
      needNewI inst tt.1 =
        max 0 (tt.2.base_required + tt.2.add_required - (fixedCountOf inst tt.1 : Int)) ∧
      (KmaxN inst tt.1 : Int) =
        needNewI inst tt.1 + (if 0 < tt.2.base_required then 1 else 0) ∧
      ∀ k, k ∈ kRange inst tt.1 ↔ 1 ≤ k ∧ k ≤ KmaxN inst tt.1 := by
  intro tt htt
  obtain ⟨tid, t⟩ := tt
  dsimp only
  have hlook : lookupL inst.teams tid = some t := lookupL_eq_some_of_mem hkeys htt
  have hteam : teamOf inst tid = t := by unfold teamOf; rw [hlook]; rfl
  refine ⟨?_, ?_, ?_⟩
  · unfold needNewI
    rw [hteam]
  · unfold KmaxN
    rw [Int.toNat_of_nonneg]
    · unfold needNewI
      rw [hteam]
    · have h0 : (0 : Int) ≤ needNewI inst tid := le_max_left 0 _
      rw [hteam]
      split <;> omega
  · intro k
    unfold kRange
    rw [List.mem_range'_1]
    omega

/-- Witness for C7 at the concrete instance `instW`. -/
theorem C7_witness :
    (instW.teams.map Prod.fst).Nodup ∧
    ("T1", (⟨"T1", "Team One", "L", [], 100, 1, 0⟩ : Team)) ∈ instW.teams ∧
    (needNewI instW "T1" =
      max 0 ((1 : Int) + 0 - (fixedCountOf instW "T1" : Int)) ∧
    (KmaxN instW "T1" : Int) = needNewI instW "T1" + (if (0 : Int) < 1 then 1 else 0) ∧
    ∀ k, k ∈ kRange instW "T1" ↔ 1 ≤ k ∧ k ≤ KmaxN instW "T1") :=
  ⟨by decide, by decide,
    C7_new_meeting_budget instW (by decide)
      ("T1", (⟨"T1", "Team One", "L", [], 100, 1, 0⟩ : Team)) (by decide)⟩

/-- C8: every stored availability cell lies in {1,2,3,4}: an empty/non-integer cell (raw
value 0) normalizes to 4, any parsed value outside {1,2,3,4} normalizes to 4, and the
values 1, 2, 3 are stored unchanged. -/
theorem C8_cell_normalization :
    (∀ v : Option Int, normalize_avail_cell v = 1 ∨ normalize_avail_cell v = 2 ∨
      normalize_avail_cell v = 3 ∨ normalize_avail_cell v = 4) ∧
    normalize_avail_cell none = 4 ∧
    normalize_avail_cell (some 0) = 4 ∧
    (∀ n : Int, ¬(n = 1 ∨ n = 2 ∨ n = 3 ∨ n = 4) → normalize_avail_cell (some n) = 4) ∧
    (∀ n : Int, n = 1 ∨ n = 2 ∨ n = 3 → normalize_avail_cell (some n) = n) := by
  refine ⟨?_, rfl, rfl, ?_, ?_⟩
  · intro v
    cases v with
    | none => decide
    | some n =>
      unfold normalize_avail_cell
      dsimp only
      split_ifs <;> omega
  · intro n hn
    unfold normalize_avail_cell
    dsimp only
    split_ifs <;> omega
  · intro n hn
    rcases hn with rfl | rfl | rfl <;> decide

/-- Witness for C8 at concrete cells 7 (out of range) and 2 (kept). -/
theorem C8_witness :
    normalize_avail_cell (some 7) = 4 ∧ normalize_avail_cell (some 2) = 2 :=
  ⟨C8_cell_normalization.2.2.2.1 7 (by decide),
   C8_cell_normalization.2.2.2.2 2 (by decide)⟩

/-- C9: `dt_index` is strictly monotone for lexicographic `(date, start_slot)` order as
long as both slots are below the multiplier 100 (which holds for every slot below
`slots_per_day = 26`); and 100 indeed exceeds the default `slots_per_day`. -/
theorem C9_dt_index_monotone (grid : TimeGrid) (d1 s1 d2 s2 : Nat)
    (h1 : s1 < 100) (h2 : s2 < 100) :
    ((d1 < d2 ∨ (d1 = d2 ∧ s1 < s2)) ↔ grid.dt_index d1 s1 < grid.dt_index d2 s2) ∧
    DEFAULT_CONFIG.slots_per_day < 100 := by
  constructor
  · unfold TimeGrid.dt_index
    omega
  · decide

/-- Witness for C9 at `(5, 3)` vs `(5, 7)` on the default grid. -/
theorem C9_witness :
    (3 : Nat) < 100 ∧ (7 : Nat) < 100 ∧
    (((5 : Nat) < 5 ∨ (5 = 5 ∧ (3 : Nat) < 7)) ↔
      TimeGrid.dt_index {} 5 3 < TimeGrid.dt_index {} 5 7) :=
  ⟨by decide, by decide, (C9_dt_index_monotone {} 5 3 5 7 (by decide) (by decide)).1⟩

/-- C10: `validate_generation_start` raises exactly when `generation_start` is strictly
earlier than `now` (equality is accepted), and on rejection `main` returns exit code 1
whatever the remaining pipeline would have computed — preprocessing and solving never
run and no output is produced. -/
theorem C10_generation_start_validation (now gs : Int) :
    ((∃ msg, validate_generation_start now gs = Except.error msg) ↔ gs < now) ∧
    (gs = now → validate_generation_start now gs = Except.ok ()) ∧
    (gs < now → ∀ rest : Unit → Nat, main_validation_gate now gs rest = 1) := by
  unfold main_validation_gate validate_generation_start
  by_cases h : gs < now
  · rw [if_pos h]
    refine ⟨⟨fun _ => h, fun _ => ⟨_, rfl⟩⟩, fun he => ?_, fun _ _ => rfl⟩
    omega
  · rw [if_neg h]
    exact ⟨⟨fun ⟨msg, hmsg⟩ => Except.noConfusion hmsg, fun hlt => absurd hlt h⟩,
      fun _ => rfl, fun hlt => absurd hlt h⟩

/-- Witness for C10 at `now = 5` with `generation_start = 5` (accepted) and `= 3`
(rejected before the pipeline). -/
theorem C10_witness :
    validate_generation_start 5 5 = Except.ok () ∧
    (∃ msg, validate_generation_start 5 3 = Except.error msg) ∧
    main_validation_gate 5 3 (fun _ => 7) = 1 :=
  ⟨(C10_generation_start_validation 5 5).2.1 rfl,
   (C10_generation_start_validation 5 3).1.mpr (by decide),
   (C10_generation_start_validation 5 3).2.2 (by decide) (fun _ => 7)⟩

theorem cand_try_eq_some_iff {tid leader : String} {cfg : AppConfig} {grid : TimeGrid}
    {ca occ : String → Nat → Nat → Bool} {gs : GenStart} {d s : Nat} {c : CandidateSlot} :
    cand_try tid leader cfg grid ca occ gs d s = some c ↔
      ((d = gs.day → gs.minutes ≤ (grid.slot_to_time s).asMinutes) ∧
       ca leader d s = true ∧
       (∀ sl ∈ grid.meeting_slots_covered s cfg.meeting_slots, occ leader d sl = false) ∧
       c = ⟨tid, d, s, grid.dt_index d s⟩) := by
  unfold cand_try
  by_cases h1 : d = gs.day ∧ (grid.slot_to_time s).asMinutes < gs.minutes
  · rw [if_pos h1]
    constructor
    · intro h; cases h
    · rintro ⟨hImp, -, -, -⟩
      have := hImp h1.1
      omega
  · rw [if_neg h1]
    by_cases h2 : ca leader d s = true
    · rw [if_pos h2]
      by_cases h3 : (grid.meeting_slots_covered s cfg.meeting_slots).any
          (fun sl => occ leader d sl) = true
      · rw [if_pos h3]
        constructor
        · intro h; cases h
        · rintro ⟨-, -, hocc, -⟩
          obtain ⟨sl, hsl, hval⟩ := List.any_eq_true.mp h3
          rw [hocc sl hsl] at hval
          cases hval
      · rw [if_neg h3]
        constructor
        · intro h
          injection h with h
          refine ⟨fun hd => Nat.le_of_not_lt (fun hlt => h1 ⟨hd, hlt⟩), h2, ?_, h.symm⟩
          intro sl hsl
          cases hb : occ leader d sl with
          | false => rfl
          | true => exact absurd (List.any_eq_true.mpr ⟨sl, hsl, hb⟩) h3
        · rintro ⟨-, -, -, rfl⟩
          rfl
    · rw [if_neg h2]
      constructor
      · intro h; cases h
      · rintro ⟨-, hca, -, -⟩
        exact absurd hca h2

theorem mem_cand_day_iff {tid leader : String} {cfg : AppConfig} {grid : TimeGrid}
    {ca occ : String → Nat → Nat → Bool} {ah : String → Nat → Bool} {gs : GenStart}
    {d : Nat} {c : CandidateSlot} :
    c ∈ cand_day tid leader cfg grid ca occ ah gs d ↔
      ah leader d = true ∧ ∃ s, s ≤ cfg.latest_start_slot ∧
        cand_try tid leader cfg grid ca occ gs d s = some c := by
  unfold cand_day
  by_cases h : ah leader d = true
  · rw [if_pos h]
    rw [List.mem_filterMap]
    constructor
    · rintro ⟨s, hs, hsome⟩
      rw [List.mem_range] at hs
      exact ⟨h, s, by omega, hsome⟩
    · rintro ⟨-, s, hs, hsome⟩
      exact ⟨s, List.mem_range.mpr (by omega), hsome⟩
  · rw [if_neg h]
    constructor
    · intro hc; cases hc
    · rintro ⟨hah, -⟩
      exact absurd hah h

theorem mem_cand_raw_iff {tid leader : String} {deadline : Nat} {cfg : AppConfig}
    {grid : TimeGrid} {ca occ : String → Nat → Nat → Bool} {ah : String → Nat → Bool}
    {gs : GenStart} {c : CandidateSlot} :
    c ∈ cand_raw tid leader deadline cfg grid ca occ ah gs ↔
      ∃ d s, gs.day ≤ d ∧ d ≤ deadline ∧ s ≤ cfg.latest_start_slot ∧ ah leader d = true ∧
        cand_try tid leader cfg grid ca occ gs d s = some c := by
  unfold cand_raw
  rw [List.mem_flatMap]
  constructor
  · rintro ⟨d, hd, hc⟩
    rw [List.mem_range'_1] at hd
    obtain ⟨hah, s, hs, hsome⟩ := mem_cand_day_iff.mp hc
    exact ⟨d, s, by omega, by omega, hs, hah, hsome⟩
  · rintro ⟨d, s, hd1, hd2, hs, hah, hsome⟩
    refine ⟨d, ?_, mem_cand_day_iff.mpr ⟨hah, s, hs, hsome⟩⟩
    rw [List.mem_range'_1]
    omega

theorem cand_raw_pairwise {tid leader : String} {deadline : Nat} {cfg : AppConfig}
    {grid : TimeGrid} {ca occ : String → Nat → Nat → Bool} {ah : String → Nat → Bool}
    {gs : GenStart} (h100 : cfg.latest_start_slot < 100) :
    List.Pairwise (fun c1 c2 => c1.dt_idx < c2.dt_idx)
      (cand_raw tid leader deadline cfg grid ca occ ah gs) := by
  unfold cand_raw
  rw [List.pairwise_flatMap]
  constructor
  · intro d hd
    unfold cand_day
    split
    · refine List.Pairwise.filterMap (cand_try tid leader cfg grid ca occ gs d) ?_
        (List.pairwise_lt_range _)
      intro s1 s2 hlt c1 hc1 c2 hc2
      have e1 := (cand_try_eq_some_iff.mp (Option.mem_def.mp hc1)).2.2.2
      have e2 := (cand_try_eq_some_iff.mp (Option.mem_def.mp hc2)).2.2.2
      subst e1
      subst e2
      show grid.dt_index d s1 < grid.dt_index d s2
      unfold TimeGrid.dt_index
      omega
    · exact List.Pairwise.nil
  · refine (List.pairwise_lt_range' gs.day (deadline + 1 - gs.day) 1).imp ?_
    intro d1 d2 hlt c1 hc1 c2 hc2
    obtain ⟨-, s1, hs1, hsome1⟩ := mem_cand_day_iff.mp hc1
    obtain ⟨-, s2, hs2, hsome2⟩ := mem_cand_day_iff.mp hc2
    have e1 := (cand_try_eq_some_iff.mp hsome1).2.2.2
    have e2 := (cand_try_eq_some_iff.mp hsome2).2.2.2
    subst e1
    subst e2
    show grid.dt_index d1 s1 < grid.dt_index d2 s2
    unfold TimeGrid.dt_index
    omega

theorem generated_team_pair_mem {teams : List (String × Team)} {cfg : AppConfig}
    {grid : TimeGrid} {ca occ : String → Nat → Nat → Bool} {ah : String → Nat → Bool}
    {gs : GenStart} {tid : String} {t : Team} (htt : (tid, t) ∈ teams)
    (h100 : cfg.latest_start_slot < 100) :
    (tid, cand_raw tid t.leader_pid t.deadline cfg grid ca occ ah gs) ∈
      generate_candidates teams cfg grid ca occ ah gs := by
  unfold generate_candidates
  have hpair := List.mem_map_of_mem (fun tt : String × Team =>
    (tt.1, List.insertionSort (fun c1 c2 => c1.dt_idx ≤ c2.dt_idx)
      (cand_raw tt.1 tt.2.leader_pid tt.2.deadline cfg grid ca occ ah gs))) htt
  dsimp only at hpair
  have hsorted : List.Pairwise (fun c1 c2 : CandidateSlot => c1.dt_idx ≤ c2.dt_idx)
      (cand_raw tid t.leader_pid t.deadline cfg grid ca occ ah gs) :=
    (cand_raw_pairwise h100).imp (fun h => Nat.le_of_lt h)
  rw [insertionSort_eq_self _ hsorted] at hpair
  exact hpair

/-- C6: for every team, `generate_candidates` returns exactly the pairs `(d, s)` with
`0 ≤ s ≤ latest_start_slot` satisfying the window, cutoff, `can_attend`, non-occupation
and availability-map conditions for the leader; the returned list is strictly increasing
in `dt_idx` (hence duplicate-free), each entry carrying the team id and
`dt_idx = dt_index(d, s)`.  (The strict ordering uses `latest_start_slot < 100`, which the
configuration guarantees: `latest_start_slot = 22`.) -/
theorem C6_generate_candidates_spec (teams : List (String × Team)) (cfg : AppConfig)
    (grid : TimeGrid) (ca occ : String → Nat → Nat → Bool) (ah : String → Nat → Bool)
    (gs : GenStart) (h100 : cfg.latest_start_slot < 100) :
    ∀ tt ∈ teams,
      (tt.1, cand_raw tt.1 tt.2.leader_pid tt.2.deadline cfg grid ca occ ah gs) ∈
        generate_candidates teams cfg grid ca occ ah gs ∧
      (∀ d s, (⟨tt.1, d, s, grid.dt_index d s⟩ : CandidateSlot) ∈
          cand_raw tt.1 tt.2.leader_pid tt.2.deadline cfg grid ca occ ah gs ↔
        candConditions tt.2 cfg grid ca occ ah gs d s) ∧
      (∀ c ∈ cand_raw tt.1 tt.2.leader_pid tt.2.deadline cfg grid ca occ ah gs,
        c.team_tid = tt.1 ∧ c.dt_idx = grid.dt_index c.day c.start_slot ∧
        candConditions tt.2 cfg grid ca occ ah gs c.day c.start_slot) ∧
      List.Pairwise (fun c1 c2 => c1.dt_idx < c2.dt_idx)
        (cand_raw tt.1 tt.2.leader_pid tt.2.deadline cfg grid ca occ ah gs) ∧
      (cand_raw tt.1 tt.2.leader_pid tt.2.deadline cfg grid ca occ ah gs).Nodup := by
  intro tt htt
  obtain ⟨tid, t⟩ := tt
  dsimp only
  refine ⟨generated_team_pair_mem htt h100, ?_, ?_, cand_raw_pairwise h100, ?_⟩
  · intro d s
    rw [mem_cand_raw_iff]
    unfold candConditions
    constructor
    · rintro ⟨d2, s2, hd1, hd2, hs2, hah, hsome⟩
      obtain ⟨hcut, hca, hocc, hmk⟩ := cand_try_eq_some_iff.mp hsome
      injection hmk with e1 e2 e3 e4
      subst e2
      subst e3
      exact ⟨hd1, hd2, hs2, hcut, hca, hocc, hah⟩
    · rintro ⟨hd1, hd2, hs, hcut, hca, hocc, hah⟩
      exact ⟨d, s, hd1, hd2, hs, hah,
        cand_try_eq_some_iff.mpr ⟨hcut, hca, hocc, rfl⟩⟩
  · intro c hc
    obtain ⟨d, s, hd1, hd2, hs, hah, hsome⟩ := mem_cand_raw_iff.mp hc
    obtain ⟨hcut, hca, hocc, hmk⟩ := cand_try_eq_some_iff.mp hsome
    subst hmk
    exact ⟨rfl, rfl, hd1, hd2, hs, hcut, hca, hocc, hah⟩
  · exact List.Pairwise.imp
      (fun {c1 c2} (h : c1.dt_idx < c2.dt_idx) (heq : c1 = c2) => by
        rw [heq] at h
        exact lt_irrefl _ h)
      (cand_raw_pairwise h100)

/-- Witness for C6 at the concrete instance `instW` (team `T1`, generation start
`gs100`): the conditions, ordering and shape hold for its computed candidate list. -/
theorem C6_witness :
    ("T1", (⟨"T1", "Team One", "L", [], 100, 1, 0⟩ : Team)) ∈ instW.teams ∧
    instW.cfg.latest_start_slot < 100 ∧
    (("T1", cand_raw "T1" "L" 100 instW.cfg instW.grid
        (build_can_attend_at instW.cfg instW.grid instW.avail_has instW.avail_val)
        (build_occupied_at instW.cfg instW.grid instW.fixed_meetings)
        instW.avail_has gs100) ∈
      generate_candidates instW.teams instW.cfg instW.grid
        (build_can_attend_at instW.cfg instW.grid instW.avail_has instW.avail_val)
        (build_occupied_at instW.cfg instW.grid instW.fixed_meetings)
        instW.avail_has gs100) :=
  ⟨by decide, by decide,
    (C6_generate_candidates_spec instW.teams instW.cfg instW.grid
      (build_can_attend_at instW.cfg instW.grid instW.avail_has instW.avail_val)
      (build_occupied_at instW.cfg instW.grid instW.fixed_meetings)
      instW.avail_has gs100 (by decide)
      ("T1", (⟨"T1", "Team One", "L", [], 100, 1, 0⟩ : Team)) (by decide)).1⟩

theorem recOneAt_eq_some {inst : SchedInstance} {a : MilpAssign} {tid : String}
    {cl : List CandidateSlot} {fl : List FixedMeeting} {k ci : Nat} {m : SolutionMeeting}
    (h : recOneAt inst a tid cl fl k ci = some m) :
    m.team_tid = tid ∧ m.day = (candAt cl ci).day ∧
    m.start_slot = (candAt cl ci).start_slot ∧
    m.leader_pid = leaderOf inst tid ∧
    m.commissioner_pids = ((personKeys inst).filter (fun pid => a.x tid k ci pid)).take 4 ∧
    m.commissioner_pids.length = 4 ∧
    m.meeting_no = fl.length + k := by
  simp only [recOneAt] at h
  split at h
  · injection h with h
    subst h
    exact ⟨rfl, rfl, rfl, rfl, rfl, by assumption, rfl⟩
  · cases h

theorem recOne_eq_some {inst : SchedInstance} {a : MilpAssign} {tid : String}
    {cl : List CandidateSlot} {fl : List FixedMeeting} {k : Nat} {m : SolutionMeeting}
    (h : recOne inst a tid cl fl k = some m) :
    ∃ ci, ci < cl.length ∧ a.y tid k ci = true ∧
      (List.range cl.length).find? (fun i => a.y tid k i) = some ci ∧
      recOneAt inst a tid cl fl k ci = some m := by
  unfold recOne at h
  rw [Option.bind_eq_some] at h
  obtain ⟨ci, hfind, hat⟩ := h
  exact ⟨ci, List.mem_range.mp (List.mem_of_find?_eq_some hfind),
    List.find?_some hfind, hfind, hat⟩

theorem mem_reconstruct {inst : SchedInstance} {a : MilpAssign} {m : SolutionMeeting}
    (h : m ∈ reconstructMeetings inst a) :
    ∃ tc ∈ inst.pre_cand, ∃ k ∈ kRange inst tc.1,
      recOne inst a tc.1 tc.2 (fixedOf inst tc.1) k = some m := by
  unfold reconstructMeetings at h
  rw [List.mem_flatMap] at h
  obtain ⟨tc, htc, hm⟩ := h
  rw [List.mem_filterMap] at hm
  obtain ⟨k, hk, hrec⟩ := hm
  exact ⟨tc, htc, k, hk, hrec⟩

/-- C5: in every feasible reconstruction, each returned meeting has exactly 4 pairwise
distinct commissioners, at least 2 of them flagged senior, all flagged commissioner, none
of them in the team's conflict set `member_pids ∪ {leader_pid}`, and the meeting's leader
is the team's leader.  Hypotheses: the person keys and candidate-map keys are dictionary
keys (duplicate-free), every team with candidates exists in `data.teams` (Python would
raise `KeyError` otherwise), and the assignment satisfies the solver contract `MilpSat`. -/
theorem C5_meeting_staffing (inst : SchedInstance) (a : MilpAssign)
    (hpers : (personKeys inst).Nodup)
    (hpre : (inst.pre_cand.map Prod.fst).Nodup)
    (hteams : ∀ tc ∈ inst.pre_cand, (lookupL inst.teams tc.1).isSome = true)
    (hsat : MilpSat inst a) :
    ∀ m ∈ reconstructMeetings inst a, ∃ t,
      lookupL inst.teams m.team_tid = some t ∧
      m.commissioner_pids.length = 4 ∧ m.commissioner_pids.Nodup ∧
      2 ≤ m.commissioner_pids.countP (fun pid => isSeniorFlag inst pid) ∧
      (∀ pid ∈ m.commissioner_pids, isComm inst pid = true ∧
        pid ∉ t.member_pids ∧ pid ≠ t.leader_pid) ∧
      m.leader_pid = t.leader_pid := by
  obtain ⟨hc1, hc2, hc3, hc4, hc5, hc6, hc7, hc8, hc9, hc10, hc11,
    hc12, hc13, hc14, hc15, hc16⟩ := hsat
  intro m hm
  obtain ⟨tc, htc, k, hk, hrec⟩ := mem_reconstruct hm
  obtain ⟨ci, hci, hy, hfind, hat⟩ := recOne_eq_some hrec
  obtain ⟨htid, hday, hslot, hleader, hcomms, hlen4, hno⟩ := recOneAt_eq_some hat
  obtain ⟨t, ht⟩ := Option.isSome_iff_exists.mp (hteams tc htc)
  have hcimem : ci ∈ ciRange tc.2 := by
    unfold ciRange
    exact List.mem_range.mpr hci
  have hcount : xCountPersons inst a tc.1 k ci = 4 := by
    rw [hc4 tc htc k hk ci hcimem, hy]
    rfl
  have hfl : ((personKeys inst).filter (fun pid => a.x tc.1 k ci pid)).length = 4 := by
    rw [← List.countP_eq_length_filter]
    exact hcount
  have hcv : m.commissioner_pids =
      (personKeys inst).filter (fun pid => a.x tc.1 k ci pid) := by
    rw [hcomms]
    exact List.take_of_length_le (by omega)
  have hcand : candOf inst tc.1 = tc.2 := by
    unfold candOf
    rw [lookupL_eq_some_of_mem hpre (show (tc.1, tc.2) ∈ inst.pre_cand from htc)]
    rfl
  refine ⟨t, ?_, hlen4, ?_, ?_, ?_, ?_⟩
  · rw [htid]
    exact ht
  · rw [hcv]
    exact hpers.filter _
  · have hsen := hc5 tc htc k hk ci hcimem
    rw [hy] at hsen
    have h2 : 2 ≤ (seniorList inst).countP (fun pid => a.x tc.1 k ci pid) := by
      have : 2 * bnat true = 2 := rfl
      omega
    rw [hcv, List.countP_filter]
    calc 2 ≤ (seniorList inst).countP (fun pid => a.x tc.1 k ci pid) := h2
      _ = (personKeys inst).countP (fun pid => a.x tc.1 k ci pid &&
            (isSeniorFlag inst pid && isComm inst pid)) := by
          unfold seniorList
          rw [List.countP_filter]
      _ ≤ (personKeys inst).countP (fun pid =>
            isSeniorFlag inst pid && a.x tc.1 k ci pid) := by
          apply List.countP_mono_left
          intro pid _ hband
          rw [Bool.and_eq_true, Bool.and_eq_true] at hband
          rw [Bool.and_eq_true]
          exact ⟨hband.2.1, hband.1⟩
  · intro pid hpid
    rw [hcv, List.mem_filter] at hpid
    obtain ⟨hmem, hx⟩ := hpid
    have helig := hc6 (tc.1, t) (lookupL_mem ht) k hk ci (by rw [hcand]; exact hcimem)
      pid hmem
    by_cases hcomm : isComm inst pid = true
    · have hforb := helig.2 hcomm
      refine ⟨hcomm, ?_, ?_⟩
      · intro hmemb
        rw [hforb (Or.inr hmemb)] at hx
        cases hx
      · intro heq
        rw [hforb (Or.inl heq)] at hx
        cases hx
    · rw [helig.1 (Bool.eq_false_iff.mpr (fun he => hcomm he))] at hx
      cases hx
  · rw [hleader]
    unfold leaderOf teamOf
    rw [ht]
    rfl

/-- Witness for C5 at `instW` / `assignW`. -/
theorem C5_witness :
    (personKeys instW).Nodup ∧ (instW.pre_cand.map Prod.fst).Nodup ∧
    (∀ tc ∈ instW.pre_cand, (lookupL instW.teams tc.1).isSome = true) ∧
    MilpSat instW assignW ∧
    (∀ m ∈ reconstructMeetings instW assignW, ∃ t,
      lookupL instW.teams m.team_tid = some t ∧
      m.commissioner_pids.length = 4 ∧ m.commissioner_pids.Nodup ∧
      2 ≤ m.commissioner_pids.countP (fun pid => isSeniorFlag instW pid) ∧
      (∀ pid ∈ m.commissioner_pids, isComm instW pid = true ∧
        pid ∉ t.member_pids ∧ pid ≠ t.leader_pid) ∧
      m.leader_pid = t.leader_pid) :=
  ⟨by decide, by decide, by decide, by decide,
    C5_meeting_staffing instW assignW (by decide) (by decide) (by decide) (by decide)⟩

theorem dbTerm_ge_one {inst : SchedInstance} {a : MilpAssign} {pid : String}
    {tc : String × List CandidateSlot} {k ci : Nat} {m : SolutionMeeting} {h : Nat}
    (hat : recOneAt inst a tc.1 tc.2 (fixedOf inst tc.1) k ci = some m)
    (hy : a.y tc.1 k ci = true)
    (hp : pid ∈ meetingParts m)
    (hh : h ∈ inst.grid.meeting_slots_covered m.start_slot inst.cfg.meeting_slots) :
    1 ≤ dbTerm inst a pid m.day h tc.1 tc.2 k ci := by
  obtain ⟨htid, hday, hslot, hleader, hcomms, hlen4, hno⟩ := recOneAt_eq_some hat
  unfold dbTerm
  rw [if_pos ⟨hday.symm, by rw [← hslot]; exact hh⟩]
  have hb1 : bnat true = 1 := rfl
  rcases List.mem_cons.mp hp with rfl | hpc
  · rw [if_pos hleader, hy, hb1]
    omega
  · have hpf : pid ∈ (personKeys inst).filter (fun q => a.x tc.1 k ci q) := by
      rw [hcomms] at hpc
      exact List.Sublist.mem hpc (List.take_sublist 4 _)
    have hx := (List.mem_filter.mp hpf).2
    rw [hx, hb1]
    omega

theorem dbTerm_le_dbInner2 (inst : SchedInstance) (a : MilpAssign) (pid : String)
    (d h : Nat) (tid : String) (cl : List CandidateSlot) (k : Nat) {ci : Nat}
    (hci : ci ∈ ciRange cl) :
    dbTerm inst a pid d h tid cl k ci ≤ dbInner2 inst a pid d h tid cl k :=
  le_sum_map_of_mem (fun ci => dbTerm inst a pid d h tid cl k ci) hci

theorem dbInner2_le_dbInner1 (inst : SchedInstance) (a : MilpAssign) (pid : String)
    (d h : Nat) (tid : String) (cl : List CandidateSlot) {k : Nat}
    (hk : k ∈ kRange inst tid) :
    dbInner2 inst a pid d h tid cl k ≤ dbInner1 inst a pid d h tid cl :=
  le_sum_map_of_mem (fun k => dbInner2 inst a pid d h tid cl k) hk

theorem dbInner1_le_dbSum (inst : SchedInstance) (a : MilpAssign) (pid : String)
    (d h : Nat) {tc : String × List CandidateSlot} (htc : tc ∈ inst.pre_cand) :
    dbInner1 inst a pid d h tc.1 tc.2 ≤ dbSum inst a pid d h :=
  le_sum_map_of_mem (fun tc : String × List CandidateSlot =>
    dbInner1 inst a pid d h tc.1 tc.2) htc

/-- Two distinct new-meeting placement terms for the same person, day and hour slot drive
the `no_double_booking` sum to at least 2. -/
theorem dbSum_ge_two {inst : SchedInstance} {a : MilpAssign} {pid : String} {d h : Nat}
    {tc1 tc2 : String × List CandidateSlot} {k1 k2 ci1 ci2 : Nat}
    (hpre : (inst.pre_cand.map Prod.fst).Nodup)
    (htc1 : tc1 ∈ inst.pre_cand) (htc2 : tc2 ∈ inst.pre_cand)
    (hk1 : k1 ∈ kRange inst tc1.1) (hk2 : k2 ∈ kRange inst tc2.1)
    (hci1 : ci1 ∈ ciRange tc1.2) (hci2 : ci2 ∈ ciRange tc2.2)
    (hne : tc1.1 ≠ tc2.1 ∨ (tc1 = tc2 ∧ k1 ≠ k2))
    (ht1 : 1 ≤ dbTerm inst a pid d h tc1.1 tc1.2 k1 ci1)
    (ht2 : 1 ≤ dbTerm inst a pid d h tc2.1 tc2.2 k2 ci2) :
    2 ≤ dbSum inst a pid d h := by
  rcases hne with htid | ⟨heq, hkne⟩
  · have hnd : inst.pre_cand.Nodup := List.Nodup.of_map Prod.fst hpre
    have hne12 : tc1 ≠ tc2 := fun he => htid (by rw [he])
    have h1 : 1 ≤ dbInner1 inst a pid d h tc1.1 tc1.2 :=
      le_trans ht1 (le_trans (dbTerm_le_dbInner2 inst a pid d h tc1.1 tc1.2 k1 hci1)
        (dbInner2_le_dbInner1 inst a pid d h tc1.1 tc1.2 hk1))
    have h2 : 1 ≤ dbInner1 inst a pid d h tc2.1 tc2.2 :=
      le_trans ht2 (le_trans (dbTerm_le_dbInner2 inst a pid d h tc2.1 tc2.2 k2 hci2)
        (dbInner2_le_dbInner1 inst a pid d h tc2.1 tc2.2 hk2))
    exact two_le_sum_map hnd
      (fun tc : String × List CandidateSlot => dbInner1 inst a pid d h tc.1 tc.2)
      htc1 htc2 hne12 h1 h2
  · subst heq
    have hndk : (kRange inst tc1.1).Nodup := List.nodup_range' _ _
    have h1 : 1 ≤ dbInner2 inst a pid d h tc1.1 tc1.2 k1 :=
      le_trans ht1 (dbTerm_le_dbInner2 inst a pid d h tc1.1 tc1.2 k1 hci1)
    have h2 : 1 ≤ dbInner2 inst a pid d h tc1.1 tc1.2 k2 :=
      le_trans ht2 (dbTerm_le_dbInner2 inst a pid d h tc1.1 tc1.2 k2 hci2)
    have hsum : 2 ≤ dbInner1 inst a pid d h tc1.1 tc1.2 :=
      two_le_sum_map hndk (fun k => dbInner2 inst a pid d h tc1.1 tc1.2 k)
        hk1 hk2 hkne h1 h2
    exact le_trans hsum (dbInner1_le_dbSum inst a pid d h htc1)

/-- Core of the new-new non-overlap argument: two distinct placed `(team, k)` cells whose
reconstructed meetings collide on day and slot coverage would push one
`no_double_booking` sum to 2, contradicting constraint (7). -/
theorem no_overlap_core (inst : SchedInstance) (a : MilpAssign)
    (hpre : (inst.pre_cand.map Prod.fst).Nodup)
    (hlead : ∀ tc ∈ inst.pre_cand, leaderOf inst tc.1 ∈ personKeys inst)
    (hsat : MilpSat inst a)
    {tc1 tc2 : String × List CandidateSlot} {k1 k2 : Nat} {m1 m2 : SolutionMeeting}
    (htc1 : tc1 ∈ inst.pre_cand) (htc2 : tc2 ∈ inst.pre_cand)
    (hk1 : k1 ∈ kRange inst tc1.1) (hk2 : k2 ∈ kRange inst tc2.1)
    (hne : tc1.1 ≠ tc2.1 ∨ (tc1 = tc2 ∧ k1 ≠ k2))
    (hr1 : recOne inst a tc1.1 tc1.2 (fixedOf inst tc1.1) k1 = some m1)
    (hr2 : recOne inst a tc2.1 tc2.2 (fixedOf inst tc2.1) k2 = some m2) :
    m1.day = m2.day → SlotsOverlap inst.cfg inst.grid m1.start_slot m2.start_slot →
      ∀ p ∈ meetingParts m1, p ∉ meetingParts m2 := by
  intro hdeq hov p hp1 hp2
  obtain ⟨ci1, hci1, hy1, hfind1, hat1⟩ := recOne_eq_some hr1
  obtain ⟨ci2, hci2, hy2, hfind2, hat2⟩ := recOne_eq_some hr2
  unfold SlotsOverlap at hov
  obtain ⟨hh, hh1, hh2⟩ := hov
  have hcimem1 : ci1 ∈ ciRange tc1.2 := by unfold ciRange; exact List.mem_range.mpr hci1
  have hcimem2 : ci2 ∈ ciRange tc2.2 := by unfold ciRange; exact List.mem_range.mpr hci2
  have inv1 := recOneAt_eq_some hat1
  have hpK : p ∈ personKeys inst := by
    rcases List.mem_cons.mp hp1 with rfl | hpc
    · rw [inv1.2.2.2.1]
      exact hlead tc1 htc1
    · have hpf : p ∈ (personKeys inst).filter (fun q => a.x tc1.1 k1 ci1 q) := by
        rw [inv1.2.2.2.2.1] at hpc
        exact List.Sublist.mem hpc (List.take_sublist 4 _)
      exact (List.mem_filter.mp hpf).1
  have ht1 : 1 ≤ dbTerm inst a p m1.day hh tc1.1 tc1.2 k1 ci1 :=
    dbTerm_ge_one hat1 hy1 hp1 hh1
  have ht2 : 1 ≤ dbTerm inst a p m1.day hh tc2.1 tc2.2 k2 ci2 := by
    rw [hdeq]
    exact dbTerm_ge_one hat2 hy2 hp2 hh2
  have h2 := dbSum_ge_two hpre htc1 htc2 hk1 hk2 hcimem1 hcimem2 hne ht1 ht2
  obtain ⟨-, -, -, -, -, -, hc7, -⟩ := hsat
  have hle := hc7 p hpK tc1 htc1 k1 hk1 ci1 hcimem1 hh
    (by rw [← inv1.2.2.1]; exact hh1)
  rw [← inv1.2.1] at hle
  omega

/-- C1 (amended): among the RETURNED NEW meetings of any feasible reconstruction, no
person appears as participant (leader or commissioner) in two meetings whose
slot-coverage intervals overlap on the same date — this is what constraint (7)
(`no_double_booking`, new-new only) enforces. -/
theorem C1_no_double_booking_among_new (inst : SchedInstance) (a : MilpAssign)
    (hpre : (inst.pre_cand.map Prod.fst).Nodup)
    (hlead : ∀ tc ∈ inst.pre_cand, leaderOf inst tc.1 ∈ personKeys inst)
    (hsat : MilpSat inst a) :
    NoParticipantOverlap inst.cfg inst.grid (viewsOfNew (reconstructMeetings inst a)) := by
  unfold NoParticipantOverlap viewsOfNew
  rw [List.pairwise_map]
  unfold reconstructMeetings
  rw [List.pairwise_flatMap]
  constructor
  · intro tc htc
    apply pairwise_filterMap_mem (recOne inst a tc.1 tc.2 (fixedOf inst tc.1))
      (List.pairwise_lt_range' 1 (KmaxN inst tc.1) 1)
    intro k1 hk1 k2 hk2 hklt m1 hm1 m2 hm2
    unfold ViewsCompatible
    dsimp only
    exact no_overlap_core inst a hpre hlead hsat htc htc hk1 hk2
      (Or.inr ⟨rfl, Nat.ne_of_lt hklt⟩) hm1 hm2
  · have hfst : List.Pairwise (fun tc1 tc2 : String × List CandidateSlot =>
        tc1.1 ≠ tc2.1) inst.pre_cand := List.pairwise_map.mp hpre
    apply List.Pairwise.imp_of_mem ?_ hfst
    intro tc1 tc2 htc1 htc2 hne m1 hm1 m2 hm2
    rw [List.mem_filterMap] at hm1 hm2
    obtain ⟨k1, hk1, hr1⟩ := hm1
    obtain ⟨k2, hk2, hr2⟩ := hm2
    unfold ViewsCompatible
    dsimp only
    exact no_overlap_core inst a hpre hlead hsat htc1 htc2 hk1 hk2 (Or.inl hne) hr1 hr2

/-- Witness for the amended C1 at `instW` / `assignW`. -/
theorem C1_amended_witness :
    (instW.pre_cand.map Prod.fst).Nodup ∧
    (∀ tc ∈ instW.pre_cand, leaderOf instW tc.1 ∈ personKeys instW) ∧
    MilpSat instW assignW ∧
    NoParticipantOverlap instW.cfg instW.grid
      (viewsOfNew (reconstructMeetings instW assignW)) :=
  ⟨by decide, by decide, by decide,
    C1_no_double_booking_among_new instW assignW (by decide) (by decide) (by decide)⟩

/-- C2 (amended): in any reconstruction whose candidate map came from
`generate_candidates` over the projector built from the availability store, the LEADER of
every returned meeting has availability code in {1, 2, 3} on every covered slot (the
projector excludes 0/4-cells for the leader, and ingest keeps codes in {1,2,3,4}); and
the availability penalty of code 4 is 0 — not +∞ — so nothing constrains the
availability of assigned commissioners. -/
theorem C2_leader_availability (inst : SchedInstance) (a : MilpAssign) (gs : GenStart)
    (hteams : (inst.teams.map Prod.fst).Nodup)
    (hgen : inst.pre_cand = generate_candidates inst.teams inst.cfg inst.grid
      (build_can_attend_at inst.cfg inst.grid inst.avail_has inst.avail_val)
      (build_occupied_at inst.cfg inst.grid inst.fixed_meetings) inst.avail_has gs)
    (hcodes : ∀ p d s v, inst.avail_val p d s = some v →
      v = 1 ∨ v = 2 ∨ v = 3 ∨ v = 4) :
    (∀ m ∈ reconstructMeetings inst a,
      ∀ sl ∈ inst.grid.meeting_slots_covered m.start_slot inst.cfg.meeting_slots,
        availCode123 (inst.avail_val m.leader_pid m.day sl) = true) ∧
    availability_penalty 4 inst.cfg = 0 := by
  refine ⟨?_, rfl⟩
  intro m hm sl hsl
  obtain ⟨tc, htc, k, hk, hrec⟩ := mem_reconstruct hm
  obtain ⟨ci, hci, hy, hfind, hat⟩ := recOne_eq_some hrec
  have inv := recOneAt_eq_some hat
  rw [hgen] at htc
  unfold generate_candidates at htc
  obtain ⟨tt, htt, heq⟩ := List.mem_map.mp htc
  have htc1 : tc.1 = tt.1 := by rw [← heq]
  have htc2 : tc.2 = List.insertionSort (fun c1 c2 => c1.dt_idx ≤ c2.dt_idx)
      (cand_raw tt.1 tt.2.leader_pid tt.2.deadline inst.cfg inst.grid
        (build_can_attend_at inst.cfg inst.grid inst.avail_has inst.avail_val)
        (build_occupied_at inst.cfg inst.grid inst.fixed_meetings)
        inst.avail_has gs) := by rw [← heq]
  have hcmem : candAt tc.2 ci ∈ tc.2 := by
    unfold candAt
    rw [List.getD_eq_getElem tc.2 dummyCand hci]
    exact List.getElem_mem hci
  rw [htc2] at hcmem
  have hcraw := (List.perm_insertionSort
    (fun c1 c2 : CandidateSlot => c1.dt_idx ≤ c2.dt_idx) _).mem_iff.mp hcmem
  obtain ⟨d, s, hd1, hd2, hs, hah, hsome⟩ := mem_cand_raw_iff.mp hcraw
  obtain ⟨hcut, hca, hocc, hmk⟩ := cand_try_eq_some_iff.mp hsome
  have hlk : lookupL inst.teams tc.1 = some tt.2 := by
    rw [htc1]
    exact lookupL_eq_some_of_mem hteams
      (show (tt.1, tt.2) ∈ inst.teams from htt)
  have hlead : m.leader_pid = tt.2.leader_pid := by
    rw [inv.2.2.2.1]
    unfold leaderOf teamOf
    rw [hlk]
    rfl
  unfold build_can_attend_at at hca
  rw [Bool.and_eq_true, Bool.and_eq_true] at hca
  have hall := hca.2
  rw [List.all_eq_true] at hall
  have hss : m.start_slot = s := by rw [inv.2.2.1, htc2, hmk]
  have hmday : m.day = d := by rw [inv.2.1, htc2, hmk]
  have hsl2 : sl ∈ inst.grid.meeting_slots_covered s inst.cfg.meeting_slots := by
    rw [← hss]
    exact hsl
  have hv := hall sl hsl2
  rw [hlead, hmday]
  cases hval : inst.avail_val tt.2.leader_pid d sl with
  | none =>
    rw [hval] at hv
    simp at hv
  | some v =>
    have hcode := hcodes _ _ _ _ hval
    rw [hval] at hv
    simp only [Option.getD_some, Bool.not_or, Bool.and_eq_true, Bool.not_eq_true',
      beq_eq_false_iff_ne, ne_eq] at hv
    unfold availCode123
    rcases hcode with rfl | rfl | rfl | rfl
    · rfl
    · rfl
    · rfl
    · exact absurd rfl hv.2

/-- Witness for the amended C2 at `instW` / `assignW` with generation start `gs100`. -/
theorem C2_amended_witness :
    (instW.teams.map Prod.fst).Nodup ∧
    instW.pre_cand = generate_candidates instW.teams instW.cfg instW.grid
      (build_can_attend_at instW.cfg instW.grid instW.avail_has instW.avail_val)
      (build_occupied_at instW.cfg instW.grid instW.fixed_meetings)
      instW.avail_has gs100 ∧
    ((∀ m ∈ reconstructMeetings instW assignW,
      ∀ sl ∈ instW.grid.meeting_slots_covered m.start_slot instW.cfg.meeting_slots,
        availCode123 (instW.avail_val m.leader_pid m.day sl) = true) ∧
    availability_penalty 4 instW.cfg = 0) :=
  ⟨by decide, by decide,
    C2_leader_availability instW assignW gs100 (by decide) (by decide)
      (fun p d s v hv => by
        by_cases hp : p = "L" ∧ d = 100 ∧ s ≤ 3
        · unfold instW at hv
          dsimp only at hv
          rw [if_pos hp] at hv
          injection hv with hv
          omega
        · unfold instW at hv
          dsimp only at hv
          rw [if_neg hp] at hv
          cases hv)⟩

/-- If new meeting `k` (for `k ≥ 2`) is placed, so is meeting `k - 1`: the handover
constraints force a shared commissioner `z`, `z` is bounded by the `x` of meeting `k - 1`,
and `exact4` ties `x` back to `y`. -/
theorem placed_prev {inst : SchedInstance} {a : MilpAssign}
    {tc : String × List CandidateSlot} (htc : tc ∈ inst.pre_cand)
    (hsat : MilpSat inst a) (kp : Nat) {ci : Nat}
    (hk2 : 2 ≤ kp) (hkK : kp ≤ KmaxN inst tc.1)
    (hci : ci < tc.2.length) (hy : a.y tc.1 kp ci = true) :
    ∃ cp, cp < tc.2.length ∧ a.y tc.1 (kp - 1) cp = true := by
  obtain ⟨-, -, -, hc4, -, -, -, -, hc9, hc10, -⟩ := hsat
  have hkm2 : kp ∈ kRange2 inst tc.1 := by
    unfold kRange2
    rw [List.mem_range'_1]
    omega
  have hcimem : ci ∈ ciRange tc.2 := by
    unfold ciRange
    exact List.mem_range.mpr hci
  have hy1 : 1 ≤ ySumK a tc.1 tc.2 kp := by
    unfold ySumK
    have hle := le_sum_map_of_mem (fun ci => bnat (a.y tc.1 kp ci)) hcimem
    simp only [hy] at hle
    have hb : bnat true = 1 := rfl
    omega
  have hzsum := hc10 tc htc kp hkm2
  obtain ⟨pid, hpid, hzpos⟩ := exists_pos_of_sum_map_pos (l := personKeys inst)
    (f := fun pid => bnat (a.z tc.1 kp pid)) (by omega)
  have hz : a.z tc.1 kp pid = true := bnat_pos_iff.mp hzpos
  have hxb := (hc9 tc htc kp hkm2 pid hpid).2
  rw [hz] at hxb
  have hxpos : 0 < xSumCi a tc.1 tc.2 (kp - 1) pid := by
    have : bnat true = 1 := rfl
    omega
  obtain ⟨cp, hcp, hxcp⟩ := exists_pos_of_sum_map_pos (l := ciRange tc.2)
    (f := fun ci => bnat (a.x tc.1 (kp - 1) ci pid)) hxpos
  have hx : a.x tc.1 (kp - 1) cp pid = true := bnat_pos_iff.mp hxcp
  have hkm1 : kp - 1 ∈ kRange inst tc.1 := by
    unfold kRange
    rw [List.mem_range'_1]
    omega
  have hex := hc4 tc htc (kp - 1) hkm1 cp hcp
  have hcount : 0 < xCountPersons inst a tc.1 (kp - 1) cp := by
    unfold xCountPersons
    exact List.countP_pos_iff.mpr ⟨pid, hpid, hx⟩
  refine ⟨cp, ?_, ?_⟩
  · unfold ciRange at hcp
    exact List.mem_range.mp hcp
  · cases hyv : a.y tc.1 (kp - 1) cp with
    | true => rfl
    | false =>
      rw [hyv] at hex
      have : bnat false = 0 := rfl
      omega

/-- If meetings `k - 1` and `k` are both placed, the ordering constraint (10) forces the
candidate index of `k` strictly above that of `k - 1`. -/
theorem order_step {inst : SchedInstance} {a : MilpAssign}
    {tc : String × List CandidateSlot} (htc : tc ∈ inst.pre_cand)
    (hsat : MilpSat inst a) (kp : Nat) {cp cc : Nat}
    (hk2 : 2 ≤ kp) (hkK : kp ≤ KmaxN inst tc.1)
    (hcp : cp < tc.2.length) (hcc : cc < tc.2.length)
    (hyp : a.y tc.1 (kp - 1) cp = true) (hyc : a.y tc.1 kp cc = true) :
    cp < cc := by
  obtain ⟨-, -, -, -, -, -, -, -, -, -, hc11, -⟩ := hsat
  by_contra hle
  push_neg at hle
  have hkm2 : kp ∈ kRange2 inst tc.1 := by
    unfold kRange2
    rw [List.mem_range'_1]
    omega
  have h := hc11 tc htc kp hkm2 cc (by unfold ciRange; exact List.mem_range.mpr hcc)
    cp (by unfold ciRange; exact List.mem_range.mpr hcp) hle
  rw [hyp, hyc] at h
  have : bnat true = 1 := rfl
  omega

/-- Chained ordering: whenever new meetings `k` and `k' > k` are both placed, their
candidate indices are strictly increasing (constraints (10) plus the placed-prefix
property bridge any gap, though in fact gaps cannot occur). -/
theorem y_ci_mono {inst : SchedInstance} {a : MilpAssign}
    {tc : String × List CandidateSlot} (htc : tc ∈ inst.pre_cand)
    (hsat : MilpSat inst a) :
    ∀ dk k c c', 1 ≤ k → k + dk + 1 ≤ KmaxN inst tc.1 →
      c < tc.2.length → c' < tc.2.length →
      a.y tc.1 k c = true → a.y tc.1 (k + dk + 1) c' = true → c < c' := by
  intro dk
  induction dk with
  | zero =>
    intro k c c' hk1 hkK hc hc' hy hy'
    have := order_step htc hsat (k + 1) (by omega) (by omega) hc hc'
      (by simpa using hy) (by simpa using hy')
    exact this
  | succ dk ih =>
    intro k c c' hk1 hkK hc hc' hy hy'
    obtain ⟨cm, hcm, hym⟩ := placed_prev htc hsat (k + (dk + 1) + 1)
      (by omega) (by omega) hc' hy'
    have hmid : a.y tc.1 (k + dk + 1) cm = true := by
      have : k + (dk + 1) + 1 - 1 = k + dk + 1 + 1 - 1 := by omega
      simpa [show k + (dk + 1) + 1 - 1 = k + dk + 1 from by omega] using hym
    have h1 : c < cm := ih k c cm hk1 (by omega) hc hcm hy hmid
    have h2 : cm < c' := order_step htc hsat (k + (dk + 1) + 1)
      (by omega) (by omega) hcm hc'
      (by simpa [show k + (dk + 1) + 1 - 1 = k + dk + 1 from by omega] using hym) hy'
    omega

theorem mem_segment_tid {inst : SchedInstance} {a : MilpAssign} {tid : String}
    {cl : List CandidateSlot} {fl : List FixedMeeting} {m : SolutionMeeting}
    (h : m ∈ (kRange inst tid).filterMap (fun k => recOne inst a tid cl fl k)) :
    m.team_tid = tid := by
  rw [List.mem_filterMap] at h
  obtain ⟨k, -, hrec⟩ := h
  obtain ⟨ci, -, -, -, hat⟩ := recOne_eq_some hrec
  exact (recOneAt_eq_some hat).1

theorem filter_flatMap_segment (inst : SchedInstance) (a : MilpAssign) :
    ∀ (l : List (String × List CandidateSlot)), (l.map Prod.fst).Nodup →
      ∀ {tc : String × List CandidateSlot}, tc ∈ l →
      (l.flatMap (fun tc' => (kRange inst tc'.1).filterMap
          (fun k => recOne inst a tc'.1 tc'.2 (fixedOf inst tc'.1) k))).filter
        (fun m => m.team_tid == tc.1) =
      (kRange inst tc.1).filterMap
        (fun k => recOne inst a tc.1 tc.2 (fixedOf inst tc.1) k) := by
  intro l
  induction l with
  | nil => intro _ tc htc; cases htc
  | cons hd tl ih =>
    intro hpre tc htc
    rw [List.map_cons, List.nodup_cons] at hpre
    rw [List.flatMap_cons, List.filter_append]
    cases htc with
    | head =>
      have h1 : (((kRange inst hd.1).filterMap
          (fun k => recOne inst a hd.1 hd.2 (fixedOf inst hd.1) k)).filter
            (fun m => m.team_tid == hd.1)) =
          (kRange inst hd.1).filterMap
            (fun k => recOne inst a hd.1 hd.2 (fixedOf inst hd.1) k) := by
        rw [List.filter_eq_self]
        intro m hm
        rw [mem_segment_tid hm]
        exact beq_self_eq_true _
      have h2 : ((tl.flatMap (fun tc' => (kRange inst tc'.1).filterMap
          (fun k => recOne inst a tc'.1 tc'.2 (fixedOf inst tc'.1) k))).filter
            (fun m => m.team_tid == hd.1)) = [] := by
        rw [List.filter_eq_nil_iff]
        intro m hm
        rw [List.mem_flatMap] at hm
        obtain ⟨tc', htc', hmem⟩ := hm
        rw [mem_segment_tid hmem]
        intro hbeq
        apply hpre.1
        rw [← beq_iff_eq.mp hbeq]
        exact List.mem_map_of_mem Prod.fst htc'
      rw [h1, h2, List.append_nil]
    | tail _ htl =>
      have h1 : (((kRange inst hd.1).filterMap
          (fun k => recOne inst a hd.1 hd.2 (fixedOf inst hd.1) k)).filter
            (fun m => m.team_tid == tc.1)) = [] := by
        rw [List.filter_eq_nil_iff]
        intro m hm
        rw [mem_segment_tid hm]
        intro hbeq
        apply hpre.1
        rw [beq_iff_eq.mp hbeq]
        exact List.mem_map_of_mem Prod.fst htl
      rw [h1, ih hpre.2 htl, List.nil_append]

/-- Filtering the reconstructed meetings by a team id recovers exactly that team's
segment of the reconstruction loop. -/
theorem filter_reconstruct_eq (inst : SchedInstance) (a : MilpAssign)
    (hpre : (inst.pre_cand.map Prod.fst).Nodup)
    {tc : String × List CandidateSlot} (htc : tc ∈ inst.pre_cand) :
    (reconstructMeetings inst a).filter (fun m => m.team_tid == tc.1) =
      (kRange inst tc.1).filterMap
        (fun k => recOne inst a tc.1 tc.2 (fixedOf inst tc.1) k) := by
  unfold reconstructMeetings
  exact filter_flatMap_segment inst a inst.pre_cand hpre htc

theorem segment_pairwise (inst : SchedInstance) (a : MilpAssign)
    {tc : String × List CandidateSlot} (htc : tc ∈ inst.pre_cand)
    (hlex : List.Pairwise (fun c1 c2 =>
      dsLt (c1.day, c1.start_slot) (c2.day, c2.start_slot)) tc.2)
    (hsat : MilpSat inst a) :
    List.Pairwise (fun m1 m2 =>
      dsLt (m1.day, m1.start_slot) (m2.day, m2.start_slot) ∧
      m1.meeting_no < m2.meeting_no)
      ((kRange inst tc.1).filterMap
        (fun k => recOne inst a tc.1 tc.2 (fixedOf inst tc.1) k)) := by
  apply pairwise_filterMap_mem (fun k => recOne inst a tc.1 tc.2 (fixedOf inst tc.1) k)
    (List.pairwise_lt_range' 1 (KmaxN inst tc.1) 1)
  intro k1 hk1 k2 hk2 hklt m1 hr1 m2 hr2
  rw [List.mem_range'_1] at hk1 hk2
  obtain ⟨ci1, hci1, hy1, -, hat1⟩ := recOne_eq_some hr1
  obtain ⟨ci2, hci2, hy2, -, hat2⟩ := recOne_eq_some hr2
  have inv1 := recOneAt_eq_some hat1
  have inv2 := recOneAt_eq_some hat2
  have hcilt : ci1 < ci2 := by
    have hdk : k2 = k1 + (k2 - k1 - 1) + 1 := by omega
    refine y_ci_mono htc hsat (k2 - k1 - 1) k1 ci1 ci2 (by omega) (by omega)
      hci1 hci2 hy1 ?_
    rw [← hdk]
    exact hy2
  constructor
  · rw [List.pairwise_iff_getElem] at hlex
    have hl := hlex ci1 ci2 hci1 hci2 hcilt
    rw [inv1.2.1, inv1.2.2.1, inv2.2.1, inv2.2.2.1]
    unfold candAt
    rw [List.getD_eq_getElem _ _ hci1, List.getD_eq_getElem _ _ hci2]
    exact hl
  · rw [inv1.2.2.2.2.2.2, inv2.2.2.2.2.2.2]
    omega

/-- C3 (amended): within each team, the returned new meetings are produced already sorted
by sequence number (`insertionSort` by `meeting_no` is the identity on them) and in that
order they are strictly increasing by `(date, start_slot)` — the candidate lists being
strictly `(date, slot)`-increasing, as `generate_candidates` guarantees (C6, with
`latest_start_slot < 100`).  The seam with the fixed prefix is NOT covered: a new meeting
can precede a fixed one (see the counterexample). -/
theorem C3_team_new_meetings_ordered (inst : SchedInstance) (a : MilpAssign)
    (hpre : (inst.pre_cand.map Prod.fst).Nodup)
    (hlex : ∀ tc ∈ inst.pre_cand, List.Pairwise (fun c1 c2 =>
      dsLt (c1.day, c1.start_slot) (c2.day, c2.start_slot)) tc.2)
    (hsat : MilpSat inst a) :
    ∀ tc ∈ inst.pre_cand,
      List.insertionSort noLe
        ((reconstructMeetings inst a).filter (fun m => m.team_tid == tc.1)) =
        (reconstructMeetings inst a).filter (fun m => m.team_tid == tc.1) ∧
      List.Pairwise (fun m1 m2 =>
        dsLt (m1.day, m1.start_slot) (m2.day, m2.start_slot) ∧
        m1.meeting_no < m2.meeting_no)
        ((reconstructMeetings inst a).filter (fun m => m.team_tid == tc.1)) := by
  intro tc htc
  have hp := segment_pairwise inst a htc (hlex tc htc) hsat
  rw [filter_reconstruct_eq inst a hpre htc]
  exact ⟨insertionSort_eq_self noLe (hp.imp (fun h => Nat.le_of_lt h.2)), hp⟩

/-- Witness for the amended C3 at `instW` / `assignW`, team `T1`. -/
theorem C3_amended_witness :
    (instW.pre_cand.map Prod.fst).Nodup ∧
    (∀ tc ∈ instW.pre_cand, List.Pairwise (fun c1 c2 =>
      dsLt (c1.day, c1.start_slot) (c2.day, c2.start_slot)) tc.2) ∧
    MilpSat instW assignW ∧
    (("T1", [(⟨"T1", 100, 0, 10000⟩ : CandidateSlot)]) ∈ instW.pre_cand ∧
      List.insertionSort noLe
        ((reconstructMeetings instW assignW).filter (fun m => m.team_tid == "T1")) =
        (reconstructMeetings instW assignW).filter (fun m => m.team_tid == "T1") ∧
      List.Pairwise (fun m1 m2 =>
        dsLt (m1.day, m1.start_slot) (m2.day, m2.start_slot) ∧
        m1.meeting_no < m2.meeting_no)
        ((reconstructMeetings instW assignW).filter (fun m => m.team_tid == "T1"))) :=
  ⟨by decide, by decide, by decide, by decide,
    C3_team_new_meetings_ordered instW assignW (by decide) (by decide) (by decide)
      ("T1", [(⟨"T1", 100, 0, 10000⟩ : CandidateSlot)]) (by decide)⟩
